import Mathlib

/-!
# Verification of the bridebuddyv2 extraction-sanitization pipeline

Shallow embedding of `src/buddy-core/frontend/session.js` (the structured-data
sanitizer: primitive normalizers, canonicalization tables, the four entity
sanitizers and the `processClaudePayload` orchestrator) together with the
domain tables of `src/buddies/bride/domain.js`, and proofs about the embedded
definitions.

Modelling conventions:
* JavaScript values reachable from `JSON.parse` output (plus `undefined` for
  absent fields) are the inductive type `JsVal`.  JSON numbers are modelled as
  arbitrary-precision integers (`Int`); the string-to-number paths of the code
  (`parseFloat` after character stripping) are modelled exactly as decimal
  parsing with the `Math.round` half-up rule expressed on the decimal digits.
* JavaScript runtime exceptions (`TypeError` from calling `.trim()` on a
  non-string, or reading a property of `null`/`undefined`) are modelled with
  `Except JsErr`; code that cannot throw is embedded as total functions.
* String primitives (`trim`, `toLowerCase`, `length`) are modelled over the
  list of characters with ASCII semantics (JavaScript's Unicode-aware trimming
  / case mapping and UTF-16 `length` coincide with this model on ASCII data).
* `new Date(s)` followed by the code's own UTC component round-trip check is
  modelled as a proleptic-Gregorian calendar validity test: an engine date is
  either Invalid or denotes a real calendar day, and the round-trip comparison
  in `normalizeDate` accepts exactly the real `YYYY-MM-DD` days.
* `JSON.parse` is a platform builtin, not repository code; the orchestrator is
  parametrized by an abstract parse function `String → Option JsVal`.
* Each regular-expression use of the source is embedded as a dedicated
  matching function reproducing the leftmost-match backtracking semantics of
  that concrete regex.
-/

/-- JavaScript values as produced by `JSON.parse`, plus `undefined`. -/
inductive JsVal : Type where
  | undefined : JsVal
  | null : JsVal
  | bool : Bool → JsVal
  | num : Int → JsVal
  | str : String → JsVal
  | arr : List JsVal → JsVal
  | obj : List (String × JsVal) → JsVal
deriving Repr

/-- JavaScript runtime exceptions relevant to this module. -/
inductive JsErr : Type where
  | typeError : String → JsErr
deriving Repr, DecidableEq

instance {ε α : Type} [DecidableEq ε] [DecidableEq α] : DecidableEq (Except ε α) := fun a b =>
  match a, b with
  | .ok x, .ok y =>
    if h : x = y then .isTrue (by rw [h]) else .isFalse (by intro hc; cases hc; exact h rfl)
  | .error e, .error f =>
    if h : e = f then .isTrue (by rw [h]) else .isFalse (by intro hc; cases hc; exact h rfl)
  | .ok _, .error _ => .isFalse (by intro hc; cases hc)
  | .error _, .ok _ => .isFalse (by intro hc; cases hc)

/-- JavaScript truthiness of a `JsVal`. -/
def jsTruthy : JsVal → Bool
  | .undefined => false
  | .null => false
  | .bool b => b
  | .num n => n != 0
  | .str s => s != ""
  | .arr _ => true
  | .obj _ => true

/-- The `typeof` operator restricted to `JsVal`. -/
def jsTypeof : JsVal → String
  | .undefined => "undefined"
  | .bool _ => "boolean"
  | .num _ => "number"
  | .str _ => "string"
  | _ => "object"

/-- Last binding of a key in an object entry list (`JSON.parse` keeps the last
duplicate key), `undefined` when absent. -/
def lookupLastField (k : String) (es : List (String × JsVal)) : JsVal :=
  match es.reverse.find? (fun p => p.1 == k) with
  | some p => p.2
  | none => .undefined

/-- Property read `v[k]` on a value known not to be `null`/`undefined`
(non-objects have none of the properties this module reads). -/
def jsGetField (v : JsVal) (k : String) : JsVal :=
  match v with
  | .obj es => lookupLastField k es
  | _ => .undefined

/-- Property read `v[k]` in a position where `v` may be `null`/`undefined`,
in which case JavaScript throws a `TypeError`. -/
def jsMember (v : JsVal) (k : String) : Except JsErr JsVal :=
  match v with
  | .undefined => .error (.typeError ("Cannot read properties of undefined (reading " ++ k ++ ")"))
  | .null => .error (.typeError ("Cannot read properties of null (reading " ++ k ++ ")"))
  | w => .ok (jsGetField w k)

/-! ## Character and string primitives -/

def isDigitChar (c : Char) : Bool := '0' ≤ c && c ≤ '9'

def digitVal (c : Char) : Nat := c.toNat - '0'.toNat

/-- ASCII whitespace as recognized by `String.prototype.trim` / `\s`. -/
def isJsWhitespace (c : Char) : Bool :=
  c = ' ' || c = '\t' || c = '\n' || c = '\r' || c = Char.ofNat 11 || c = Char.ofNat 12

def isWordChar (c : Char) : Bool :=
  ('a' ≤ c && c ≤ 'z') || ('A' ≤ c && c ≤ 'Z') || isDigitChar c || c = '_'

def lowerChar (c : Char) : Char :=
  if 'A' ≤ c && c ≤ 'Z' then Char.ofNat (c.toNat + 32) else c

def trimChars (l : List Char) : List Char :=
  ((l.dropWhile isJsWhitespace).reverse.dropWhile isJsWhitespace).reverse

/-- `String.prototype.trim` (ASCII model). -/
def jsTrim (s : String) : String := ⟨trimChars s.data⟩

/-- `String.prototype.toLowerCase` (ASCII model). -/
def jsToLower (s : String) : String := ⟨s.data.map lowerChar⟩

/-- `String.prototype.length` (code-point model; agrees with UTF-16 length on
the basic multilingual plane). -/
def jsLength (s : String) : Nat := s.data.length

def digitChar (n : Nat) : Char := Char.ofNat (48 + n % 10)

/-- Decimal digits of a natural number, fuel-structured so that it reduces. -/
def natToCharsAux : Nat → Nat → List Char
  | 0, _ => []
  | fuel + 1, n => if n < 10 then [digitChar n] else natToCharsAux fuel (n / 10) ++ [digitChar n]

/-- `Number.prototype.toString` for naturals. -/
def natToString (n : Nat) : String := ⟨natToCharsAux (n + 1) n⟩

/-- `Number.prototype.toString` for (model) integers. -/
def intToString : Int → String
  | .ofNat m => natToString m
  | .negSucc m => "-" ++ natToString (m + 1)

def joinWithComma : List String → String
  | [] => ""
  | [s] => s
  | s :: rest => s ++ "," ++ joinWithComma rest

mutual

/-- String conversion used by template-literal interpolation `${value}`
(`Array.prototype.toString` joins elements with commas, rendering `null` and
`undefined` as empty). -/
def jsDisplay : JsVal → String
  | .undefined => "undefined"
  | .null => "null"
  | .bool true => "true"
  | .bool false => "false"
  | .num n => intToString n
  | .str s => s
  | .arr xs => joinWithComma (jsDisplayElems xs)
  | .obj _ => "[object Object]"

def jsDisplayElems : List JsVal → List String
  | [] => []
  | .null :: rest => "" :: jsDisplayElems rest
  | .undefined :: rest => "" :: jsDisplayElems rest
  | v :: rest => jsDisplay v :: jsDisplayElems rest

end

def quoteStr (s : String) : String := "\"" ++ s ++ "\""

/-! ## Primitive normalizers (session.js lines 110-202) -/

/-- `toTrimmedString` (session.js 110-116): text values only, trimmed,
rejecting blank results. -/
def toTrimmedString (v : JsVal) : Option String :=
  match v with
  | .str s =>
    let t := jsTrim s
    if t = "" then none else some t
  | _ => none

def isLeapYear (y : Nat) : Bool := (y % 4 = 0 && y % 100 != 0) || y % 400 = 0

def daysInMonth (y m : Nat) : Nat :=
  if m = 2 then (if isLeapYear y then 29 else 28)
  else if m = 4 || m = 6 || m = 9 || m = 11 then 30 else 31

def isRealDate (y m d : Nat) : Bool :=
  1 ≤ m && m ≤ 12 && 1 ≤ d && d ≤ daysInMonth y m

/-- The shape test `^\d{4}-\d{2}-\d{2}$` (DATE_REGEX) plus component
extraction. -/
def dateParts : List Char → Option (Nat × Nat × Nat)
  | [y1, y2, y3, y4, '-', m1, m2, '-', d1, d2] =>
    if isDigitChar y1 && isDigitChar y2 && isDigitChar y3 && isDigitChar y4 &&
       isDigitChar m1 && isDigitChar m2 && isDigitChar d1 && isDigitChar d2 then
      some (((digitVal y1 * 10 + digitVal y2) * 10 + digitVal y3) * 10 + digitVal y4,
            digitVal m1 * 10 + digitVal m2, digitVal d1 * 10 + digitVal d2)
    else none
  | _ => none

/-- `normalizeDate` (session.js 118-131).  The engine call `new Date(trimmed)`
followed by the UTC component round-trip comparison is modelled as the
calendar validity test `isRealDate`: an ECMAScript Date is either Invalid
(rejected by the `Number.isNaN` guard) or denotes a real calendar day, and the
round-trip equality holds exactly when the written components are that day.
The zero-padding of the returned components is the identity because the shape
test already fixes the component widths. -/
def normalizeDate (v : JsVal) : Option String :=
  if jsTruthy v = false then none
  else match v with
    | .str s =>
      let t := jsTrim s
      if t = "" then none
      else match dateParts t.data with
        | none => none
        | some (y, m, d) => if isRealDate y m d then some t else none
    | _ => none

def isCurrencyKeep (c : Char) : Bool := isDigitChar c || c = '.' || c = '-'

def digitsToNat (l : List Char) : Nat := l.foldl (fun a c => a * 10 + digitVal c) 0

/-- `Number.parseFloat` on a string containing only digits, `.` and `-`
(the residue of the currency cleaning step): sign, integer part, fraction
digits; `none` is `NaN`. -/
def parseFloatMag (l : List Char) (neg : Bool) : Option (Bool × Nat × List Char) :=
  let ip := l.takeWhile isDigitChar
  let rest := l.dropWhile isDigitChar
  let fp := match rest with
    | '.' :: r => r.takeWhile isDigitChar
    | _ => []
  if ip.isEmpty && fp.isEmpty then none else some (neg, digitsToNat ip, fp)

def parseFloatParts : List Char → Option (Bool × Nat × List Char)
  | '-' :: r => parseFloatMag r true
  | r => parseFloatMag r false

/-- `Math.round` of the non-negative decimal `ip . fp` (half-up: the fraction
is at least one half exactly when its first digit is at least 5). -/
def roundHalfUp (ip : Nat) (fp : List Char) : Nat :=
  match fp with
  | [] => ip
  | c :: _ => if '5' ≤ c then ip + 1 else ip

/-- `normalizeCurrency` (session.js 133-145). -/
def normalizeCurrency (v : JsVal) : Option Nat :=
  match v with
  | .null | .undefined => none
  | .num n => if 0 ≤ n then some n.toNat else none
  | .str s =>
    if s = "" then none
    else
      let cleaned := s.data.filter isCurrencyKeep
      if cleaned.isEmpty then none
      else match parseFloatParts cleaned with
        | none => none
        | some (neg, ip, fp) =>
          if neg && (0 < ip || fp.any (fun c => c != '0')) then none
          else some (roundHalfUp ip fp)
  | _ => none

/-- `normalizeInteger` (session.js 147-157). -/
def normalizeInteger (v : JsVal) : Option Nat :=
  match v with
  | .null | .undefined => none
  | .num n => if 0 ≤ n then some n.toNat else none
  | .str s =>
    if s = "" then none
    else
      let cleaned := s.data.filter isDigitChar
      if cleaned.isEmpty then none else some (digitsToNat cleaned)
  | _ => none

/-- `normalizeBoolean` (session.js 159-168). -/
def normalizeBoolean (v : JsVal) : Option Bool :=
  match v with
  | .null | .undefined => none
  | .bool b => some b
  | .str s =>
    let lowered := jsToLower (jsTrim s)
    if lowered = "" then none
    else if ["true", "yes", "y", "paid", "completed"].contains lowered then some true
    else if ["false", "no", "n", "unpaid", "not paid"].contains lowered then some false
    else none
  | _ => none

/-! ## Canonicalization tables (buddies/bride/domain.js) -/

def vendorTypes : List String :=
  ["photographer", "caterer", "florist", "dj", "videographer", "baker", "planner",
   "venue", "decorator", "hair_makeup", "transportation", "rentals", "other"]

def vendorTypeAliases : List (String × String) :=
  [("photography", "photographer"), ("photo", "photographer"), ("photos", "photographer"),
   ("dj/band", "dj"), ("band", "dj"), ("music", "dj"),
   ("bakery", "baker"), ("cake", "baker"), ("cakes", "baker"),
   ("makeup", "hair_makeup"), ("hair & makeup", "hair_makeup"), ("hair and makeup", "hair_makeup"),
   ("transport", "transportation"), ("planner/coordinator", "planner"), ("coordinator", "planner"),
   ("decor", "decorator"), ("lighting", "decorator")]

def vendorStatuses : List String :=
  ["inquiry", "pending", "booked", "contract_signed", "deposit_paid", "fully_paid",
   "rejected", "cancelled"]

def budgetCategories : List (String × String) :=
  [("venue", "venue"), ("ceremony", "venue"), ("reception", "venue"),
   ("catering", "catering"), ("food", "catering"),
   ("flowers", "flowers"), ("floral", "flowers"),
   ("photography", "photography"), ("photo", "photography"),
   ("videography", "videography"),
   ("music", "music"), ("dj", "music"), ("band", "music"),
   ("cake", "cake"), ("dessert", "cake"),
   ("decor", "decorations"), ("decorations", "decorations"),
   ("attire", "attire"), ("dress", "attire"), ("suit", "attire"),
   ("invitations", "invitations"), ("stationery", "invitations"),
   ("favors", "favors"),
   ("transport", "transportation"), ("transportation", "transportation"),
   ("honeymoon", "honeymoon"), ("other", "other")]

def taskCategories : List (String × String) :=
  [("venue", "venue"), ("catering", "catering"),
   ("flowers", "flowers"), ("floral", "flowers"),
   ("photography", "photography"), ("photo", "photography"),
   ("attire", "attire"), ("dress", "attire"),
   ("invitations", "invitations"),
   ("decor", "decorations"), ("decorations", "decorations"),
   ("transport", "transportation"), ("transportation", "transportation"),
   ("legal", "legal"), ("honeymoon", "honeymoon"),
   ("day_of", "day_of"), ("day-of", "day_of"),
   ("other", "other")]

def taskStatuses : List String := ["not_started", "in_progress", "completed", "cancelled"]

def taskPriorities : List String := ["low", "medium", "high", "urgent"]

/-- `canonicalizeVendorType` (session.js 170-176).  A truthy non-string value
reaches `value.trim()` and throws a `TypeError`. -/
def canonicalizeVendorType (v : JsVal) : Except JsErr (Option String) :=
  if jsTruthy v = false then .ok none
  else match v with
    | .str s =>
      let normalized := jsToLower (jsTrim s)
      if normalized = "" then .ok none
      else if vendorTypes.contains normalized then .ok (some normalized)
      else .ok (vendorTypeAliases.lookup normalized)
    | _ => .error (.typeError "value.trim is not a function")

/-- `canonicalizeBudgetCategory` (session.js 178-183); throws like
`canonicalizeVendorType` on truthy non-strings. -/
def canonicalizeBudgetCategory (v : JsVal) : Except JsErr (Option String) :=
  if jsTruthy v = false then .ok none
  else match v with
    | .str s =>
      let normalized := jsToLower (jsTrim s)
      if normalized = "" then .ok none
      else .ok (budgetCategories.lookup normalized)
    | _ => .error (.typeError "value.trim is not a function")

/-- `canonicalizeTaskCategory` (session.js 185-190). -/
def canonicalizeTaskCategory (v : JsVal) : Except JsErr (Option String) :=
  if jsTruthy v = false then .ok none
  else match v with
    | .str s =>
      let normalized := jsToLower (jsTrim s)
      if normalized = "" then .ok none
      else .ok (taskCategories.lookup normalized)
    | _ => .error (.typeError "value.trim is not a function")

/-- The pattern `raw ? raw.trim().toLowerCase() : null` used for vendor status
and task status/priority: throws on truthy non-strings. -/
def jsOptTrimLower (v : JsVal) : Except JsErr (Option String) :=
  if jsTruthy v = false then .ok none
  else match v with
    | .str s => .ok (some (jsToLower (jsTrim s)))
    | _ => .error (.typeError "value.trim is not a function")

/-! ## Email / phone validators (session.js 192-202) -/

def noSpaceNoAt (l : List Char) : Bool := l.all (fun c => !isJsWhitespace c && c != '@')

def splitChar (c : Char) : List Char → List (List Char)
  | [] => [[]]
  | x :: rest =>
    let r := splitChar c rest
    if x = c then [] :: r
    else match r with
      | h :: t => (x :: h) :: t
      | [] => [[x]]

/-- `.` somewhere strictly inside the list (not first, not last position). -/
def dotBeforeLast : List Char → Bool
  | [] => false
  | [_] => false
  | c :: rest => c = '.' || dotBeforeLast rest

def hasInteriorDot : List Char → Bool
  | [] => false
  | _ :: rest => dotBeforeLast rest

/-- `EMAIL_REGEX = /^[^\s@]+@[^\s@]+\.[^\s@]+$/`. -/
def emailShape (l : List Char) : Bool :=
  match splitChar '@' l with
  | [a, b] => !a.isEmpty && noSpaceNoAt a && !b.isEmpty && noSpaceNoAt b && hasInteriorDot b
  | _ => false

def validateEmail (v : JsVal) : Option String :=
  match toTrimmedString v with
  | none => none
  | some s => if emailShape s.data then some s else none

def isPhoneChar (c : Char) : Bool :=
  isDigitChar c || c = '(' || c = ')' || c = '[' || c = ']' || isJsWhitespace c || c = '-'

/-- `PHONE_REGEX = /^\+?[0-9()[\]\s-]{7,}$/`. -/
def phoneShape (l : List Char) : Bool :=
  let rest := match l with
    | '+' :: r => r
    | r => r
  7 ≤ rest.length && rest.all isPhoneChar

def validatePhone (v : JsVal) : Option String :=
  match toTrimmedString v with
  | none => none
  | some s => if phoneShape s.data then some s else none

/-! ## Time-of-day formatting (session.js 204-262)

Each regular expression of `formatWeddingTimeForSupabase` is embedded as a
dedicated matcher with the backtracking order of the concrete pattern. -/

def toNat2 (a b : Char) : Nat := digitVal a * 10 + digitVal b

def minutePairOk (a b : Char) : Bool := '0' ≤ a && a ≤ '5' && isDigitChar b

/-- Two-digit hour alternatives `[01]\d|2[0-3]` of the anchored pattern. -/
def hourPairOk (a b : Char) : Bool :=
  ((a = '0' || a = '1') && isDigitChar b) || (a = '2' && ('0' ≤ b && b ≤ '3'))

/-- The optional seconds suffix `(?::([0-5]\d))?$` of the anchored pattern. -/
def secondsTailOk : List Char → Bool
  | [] => true
  | [':', a, b] => minutePairOk a b
  | _ => false

/-- Anchored match `^([01]?\d|2[0-3]):([0-5]\d)(?::([0-5]\d))?$`, returning
the two-digit-padded hour capture and the minutes capture.  A one-digit and a
two-digit hour reading are never simultaneously possible, so the greedy
backtracking collapses to this case split. -/
def matchDirect : List Char → Option (List Char × List Char)
  | a :: ':' :: m1 :: m2 :: rest =>
    if isDigitChar a && minutePairOk m1 m2 && secondsTailOk rest then
      some (['0', a], [m1, m2])
    else none
  | a :: b :: ':' :: m1 :: m2 :: rest =>
    if hourPairOk a b && minutePairOk m1 m2 && secondsTailOk rest then
      some ([a, b], [m1, m2])
    else none
  | _ => none

/-- `(am|pm)` at this position (trailing characters are irrelevant in the
unanchored pattern); `some true` is `pm`. -/
def ampmModifierAt : List Char → Option Bool
  | 'a' :: 'm' :: _ => some false
  | 'p' :: 'm' :: _ => some true
  | _ => none

/-- The optional group `(?::(\d{2}))` of the am/pm pattern. -/
def ampmColonAt : List Char → Option (Nat × List Char)
  | ':' :: a :: b :: rest =>
    if isDigitChar a && isDigitChar b then some (toNat2 a b, rest) else none
  | _ => none

/-- `\s*(am|pm)` after a fixed hour reading, minutes defaulting to 0 (the
greedy `\s*` cannot steal from `am|pm`, so it is a plain skip). -/
def ampmNoColon (h : Nat) (rest : List Char) : Option (Nat × Nat × Bool) :=
  match ampmModifierAt (rest.dropWhile isJsWhitespace) with
  | some pm => some (h, 0, pm)
  | none => none

/-- Continuation after a fixed hour reading: greedy optional colon group
first, then the reading without it. -/
def ampmAfterHour (h : Nat) (rest : List Char) : Option (Nat × Nat × Bool) :=
  match ampmColonAt rest with
  | some (m, rest2) =>
    match ampmModifierAt (rest2.dropWhile isJsWhitespace) with
    | some pm => some (h, m, pm)
    | none => ampmNoColon h rest
  | none => ampmNoColon h rest

/-- Attempts of `(\d{1,2})(?::(\d{2}))?\s*(am|pm)` at one position: greedy
two-digit hour first, then one digit. -/
def ampmAtPos (c : Char) (rest : List Char) : Option (Nat × Nat × Bool) :=
  match rest with
  | d :: rest2 =>
    if isDigitChar d then
      match ampmAfterHour (toNat2 c d) rest2 with
      | some r => some r
      | none => ampmAfterHour (digitVal c) rest
    else ampmAfterHour (digitVal c) rest
  | [] => ampmAfterHour (digitVal c) rest

/-- Leftmost match of the unanchored `(\d{1,2})(?::(\d{2}))?\s*(am|pm)`. -/
def ampmScan : List Char → Option (Nat × Nat × Bool)
  | [] => none
  | c :: rest =>
    match (if isDigitChar c then ampmAtPos c rest else none) with
    | some r => some r
    | none => ampmScan rest

/-- The 12-hour to 24-hour adjustment of the am/pm branch. -/
def ampmAdjust (h : Nat) (pm : Bool) : Nat :=
  if h = 12 then (if pm then 12 else 0) else (if pm then h + 12 else h)

/-- `padStart(2, '0')` on a digit string. -/
def pad2 (l : List Char) : List Char := if l.length = 1 then '0' :: l else l

/-- Word boundary `\b` after a match: end of input or a non-word character. -/
def boundaryAfter : List Char → Bool
  | [] => true
  | c :: _ => !isWordChar c

/-- The suffix `(:([0-5]\d))\b` of the embedded 24-hour pattern, returning the
minutes capture. -/
def emb24After : List Char → Option (List Char)
  | ':' :: m1 :: m2 :: rest2 =>
    if minutePairOk m1 m2 && boundaryAfter rest2 then some [m1, m2] else none
  | _ => none

/-- The greedy alternative `[01]\d` at one position. -/
def emb24Two (c : Char) (rest : List Char) : Option (List Char × List Char) :=
  match rest with
  | d :: rest2 =>
    if (c = '0' || c = '1') && isDigitChar d then
      (emb24After rest2).map (fun m => ([c, d], m))
    else none
  | [] => none

/-- The bare `\d` alternative at one position. -/
def emb24One (c : Char) (rest : List Char) : Option (List Char × List Char) :=
  if isDigitChar c then (emb24After rest).map (fun m => ([c], m)) else none

/-- The `2[0-3]` alternative at one position. -/
def emb24TwoThree (c : Char) (rest : List Char) : Option (List Char × List Char) :=
  match rest with
  | d :: rest2 =>
    if c = '2' && ('0' ≤ d && d ≤ '3') then
      (emb24After rest2).map (fun m => ([c, d], m))
    else none
  | [] => none

/-- Attempts of `([01]?\d|2[0-3])(:([0-5]\d))\b` at one position, in the
backtracking order: greedy `[01]\d`, then bare `\d`, then `2[0-3]`. -/
def emb24AtPos (c : Char) (rest : List Char) : Option (List Char × List Char) :=
  match emb24Two c rest with
  | some r => some r
  | none =>
    match emb24One c rest with
    | some r => some r
    | none => emb24TwoThree c rest

/-- Leftmost match of `\b([01]?\d|2[0-3])(:([0-5]\d))\b`; the flag carries
whether the previous character was a word character (for `\b`). -/
def emb24Scan : Bool → List Char → Option (List Char × List Char)
  | _, [] => none
  | prevW, c :: rest =>
    match (if prevW then none else emb24AtPos c rest) with
    | some r => some r
    | none => emb24Scan (isWordChar c) rest

/-- Attempts of `([1-9]|1[0-2])\b` at one position ( `[1-9]` first). -/
def embHourAtPos (c : Char) (rest : List Char) : Option Nat :=
  if '1' ≤ c && c ≤ '9' && boundaryAfter rest then some (digitVal c)
  else if c = '1' then
    match rest with
    | d :: rest2 =>
      if '0' ≤ d && d ≤ '2' && boundaryAfter rest2 then some (10 + digitVal d) else none
    | [] => none
  else none

/-- Leftmost match of `\b([1-9]|1[0-2])\b`. -/
def embHourScan : Bool → List Char → Option Nat
  | _, [] => none
  | prevW, c :: rest =>
    match (if prevW then none else embHourAtPos c rest) with
    | some r => some r
    | none => embHourScan (isWordChar c) rest

/-- Hour rendering `hours.toString().padStart(2, '0')`. -/
def renderNat2 (n : Nat) : List Char := pad2 (natToString n).data

/-- `formatWeddingTimeForSupabase` (session.js 204-262). -/
def formatWeddingTimeForSupabase (v : JsVal) : Option String :=
  if jsTruthy v = false then none
  else match v with
    | .str s =>
      let t := jsTrim s
      if t = "" then none
      else
        let lower := (jsToLower t).data
        if lower = "noon".data then some "12:00"
        else if lower = "midnight".data then some "00:00"
        else match matchDirect lower with
        | some (h, m) => some ⟨h ++ ':' :: m⟩
        | none =>
          match ampmScan lower with
          | some (h, m, pm) =>
            some ⟨renderNat2 (ampmAdjust h pm) ++ ':' :: renderNat2 m⟩
          | none =>
            match emb24Scan false lower with
            | some (h, m) => some ⟨pad2 h ++ ':' :: m⟩
            | none =>
              match embHourScan false lower with
              | some h => if h ≤ 23 then some ⟨renderNat2 h ++ [':', '0', '0']⟩ else none
              | none => none
    | _ => none

example : formatWeddingTimeForSupabase (.str "5:30pm") = some "17:30" := by decide
example : formatWeddingTimeForSupabase (.str "noon") = some "12:00" := by decide
example : formatWeddingTimeForSupabase (.str "14:00") = some "14:00" := by decide
example : formatWeddingTimeForSupabase (.str "half past") = none := by decide
example : formatWeddingTimeForSupabase (.str "13pm") = some "25:00" := by decide
example : formatWeddingTimeForSupabase (.str "1:99pm") = some "13:99" := by decide
example : formatWeddingTimeForSupabase (.str "around 7 in the evening") = some "07:00" := by decide
example : formatWeddingTimeForSupabase (.str "we said 18:45 sharp") = some "18:45" := by decide

/-! ## Sanity checks of the primitive layer (examples) -/

example : normalizeDate (.str "2025-09-20") = some "2025-09-20" := by decide
example : normalizeDate (.str "2025-02-30") = none := by decide
example : normalizeCurrency (.str "$25,000") = some 25000 := by decide
example : normalizeCurrency (.str "-5") = none := by decide
example : normalizeInteger (.str "150") = some 150 := by decide
example : normalizeBoolean (.str "Not Paid") = some false := by decide
example : canonicalizeVendorType (.str "Photo") = .ok (some "photographer") := by decide
example : canonicalizeVendorType (.num 7) = .error (.typeError "value.trim is not a function") := by decide
example : validateEmail (.str "a@b.co") = some "a@b.co" := by decide
example : validateEmail (.str "a@b.") = none := by decide
example : validatePhone (.str "+1 (555) 123-4567") = some "+1 (555) 123-4567" := by decide

/-! ## Profile sanitizer (session.js 264-346) -/

/-- Values stored in the sanitized wedding-info object. -/
inductive WiVal : Type where
  | s : String → WiVal
  | n : Nat → WiVal
deriving Repr, DecidableEq

/-- The nine free-text keys of the `switch` (session.js 323-331). -/
def wiStringKeys : List String :=
  ["partner1_name", "partner2_name", "ceremony_location", "reception_location",
   "venue_name", "color_scheme_primary", "color_scheme_secondary", "wedding_style",
   "wedding_name"]

/-- The skip test `value === null || value === undefined || value === ''`. -/
def isSkipValue : JsVal → Bool
  | .null => true
  | .undefined => true
  | .str s => s = ""
  | _ => false

/-- JavaScript object property assignment on an entry list: overwrite in
place, or append. -/
def setField (k : String) (v : WiVal) : List (String × WiVal) → List (String × WiVal)
  | [] => [(k, v)]
  | (k', v') :: rest => if k' = k then (k, v) :: rest else (k', v') :: setField k v rest

def wiDateWarn (v : JsVal) : String :=
  "Ignored wedding_date: expected YYYY-MM-DD, received " ++ quoteStr (jsDisplay v) ++ "."

def wiTimeWarn (v : JsVal) : String :=
  "Ignored wedding_time: unrecognized time " ++ quoteStr (jsDisplay v) ++ "."

def wiCountWarn (v : JsVal) : String :=
  "Ignored expected_guest_count: expected whole number, received " ++ quoteStr (jsDisplay v) ++ "."

def wiBudgetWarn (v : JsVal) : String :=
  "Ignored total_budget: expected positive currency, received " ++ quoteStr (jsDisplay v) ++ "."

def wiVenueWarn (v : JsVal) : String :=
  "Ignored venue_cost: expected positive currency, received " ++ quoteStr (jsDisplay v) ++ "."

/-- One iteration of the `for (const [key, value] of Object.entries(...))`
loop of `sanitizeWeddingInfo`. -/
def wiStep (acc : List (String × WiVal) × List String) (e : String × JsVal) :
    List (String × WiVal) × List String :=
  let key := e.1
  let value := e.2
  if isSkipValue value then acc
  else if key = "wedding_date" then
    match normalizeDate value with
    | some d => (setField key (.s d) acc.1, acc.2)
    | none => (acc.1, acc.2 ++ [wiDateWarn value])
  else if key = "wedding_time" then
    match formatWeddingTimeForSupabase value with
    | some t => (setField key (.s t) acc.1, acc.2)
    | none => (acc.1, acc.2 ++ [wiTimeWarn value])
  else if key = "expected_guest_count" then
    match normalizeInteger value with
    | some c => (setField key (.n c) acc.1, acc.2)
    | none => (acc.1, acc.2 ++ [wiCountWarn value])
  else if key = "total_budget" then
    match normalizeCurrency value with
    | some b => (setField key (.n b) acc.1, acc.2)
    | none => (acc.1, acc.2 ++ [wiBudgetWarn value])
  else if key = "venue_cost" then
    match normalizeCurrency value with
    | some b => (setField key (.n b) acc.1, acc.2)
    | none => (acc.1, acc.2 ++ [wiVenueWarn value])
  else if wiStringKeys.contains key then
    match toTrimmedString value with
    | some t => (setField key (.s t) acc.1, acc.2)
    | none => acc
  else acc

/-- `Object.entries` for the values this module feeds to it (array entries are
indexed by decimal strings; primitives have no own enumerable entries). -/
def jsEntriesFrom (i : Nat) : List JsVal → List (String × JsVal)
  | [] => []
  | x :: rest => (natToString i, x) :: jsEntriesFrom (i + 1) rest

def jsEntries : JsVal → List (String × JsVal)
  | .obj es => es
  | .arr xs => jsEntriesFrom 0 xs
  | _ => []

/-- `sanitizeWeddingInfo` (session.js 264-346): total, never throws. -/
def sanitizeWeddingInfo (v : JsVal) : List (String × WiVal) × List String :=
  if !jsTruthy v || jsTypeof v != "object" then ([], [])
  else (jsEntries v).foldl wiStep ([], [])

example :
    sanitizeWeddingInfo (.obj [("wedding_time", .str "5:30pm"), ("junk", .str "x"),
      ("expected_guest_count", .str "150"), ("total_budget", .str "$25,000")]) =
    ([("wedding_time", .s "17:30"), ("expected_guest_count", .n 150),
      ("total_budget", .n 25000)], []) := by decide

example :
    sanitizeWeddingInfo (.obj [("partner1_name", .str " ")]) = ([], []) := by decide

example :
    sanitizeWeddingInfo (.obj [("wedding_date", .str "Feb 30")]) =
    ([], ["Ignored wedding_date: expected YYYY-MM-DD, received \"Feb 30\"."]) := by decide

/-! ## Vendor sanitizer (session.js 348-423) -/

structure VendorRec where
  vendor_type : String
  vendor_name : String
  vendor_contact_name : Option String
  vendor_email : Option String
  vendor_phone : Option String
  total_cost : Option Nat
  deposit_amount : Option Nat
  deposit_paid : Option Bool
  deposit_date : Option String
  balance_due : Option Nat
  final_payment_date : Option String
  final_payment_paid : Option Bool
  status : Option String
  contract_signed : Option Bool
  contract_date : Option String
  service_date : Option String
  notes : Option String
deriving Repr, DecidableEq

/-- `vendorKey` (session.js 102-104). -/
def vendorKey (ty name : String) : String := ty ++ ":" ++ jsToLower name

def vendorObjWarn (i : Nat) : String :=
  "Skipped vendor at index " ++ natToString i ++ ": expected object."

def vendorNameWarn (i : Nat) : String :=
  "Skipped vendor at index " ++ natToString i ++ ": missing vendor_name."

def vendorTypeWarn (name : String) (raw : JsVal) : String :=
  "Skipped vendor " ++ quoteStr name ++ ": unsupported vendor_type " ++ quoteStr (jsDisplay raw) ++ "."

def vendorDupWarn (name ty : String) : String :=
  "Skipped vendor " ++ quoteStr name ++ " (" ++ ty ++ "): duplicate entry."

def clampWarn (name : String) : String :=
  "Adjusted deposit for vendor " ++ quoteStr name ++ " to not exceed total_cost."

def vendorStatusWarn (raw : JsVal) (name : String) : String :=
  "Dropped unsupported status " ++ quoteStr (jsDisplay raw) ++ " for vendor " ++ quoteStr name ++ "."

/-- Field normalization, deposit clamping and status handling for one vendor
that survived the name/type/duplicate gates (session.js 383-417); the status
read can throw. -/
def buildVendor (vendor : JsVal) (vendorName vendorType : String) :
    Except JsErr (VendorRec × List String) :=
  let totalCost := normalizeCurrency (jsGetField vendor "total_cost")
  let depositAmount := normalizeCurrency (jsGetField vendor "deposit_amount")
  let balanceDue := normalizeCurrency (jsGetField vendor "balance_due")
  let clamp := match totalCost, depositAmount with
    | some t, some d => decide (t < d)
    | _, _ => false
  let adjustedDeposit := if clamp then totalCost else depositAmount
  let ws1 := if clamp then [clampWarn vendorName] else []
  match jsOptTrimLower (jsGetField vendor "status") with
  | .error e => .error e
  | .ok statusRaw =>
    let canonicalStatus := match statusRaw with
      | some st => if st != "" && vendorStatuses.contains st then some st else none
      | none => none
    let ws2 := match statusRaw with
      | some st =>
        if st != "" && !(vendorStatuses.contains st) then
          [vendorStatusWarn (jsGetField vendor "status") vendorName]
        else []
      | none => []
    .ok ({ vendor_type := vendorType, vendor_name := vendorName,
           vendor_contact_name := toTrimmedString (jsGetField vendor "vendor_contact_name"),
           vendor_email := validateEmail (jsGetField vendor "vendor_email"),
           vendor_phone := validatePhone (jsGetField vendor "vendor_phone"),
           total_cost := totalCost,
           deposit_amount := adjustedDeposit,
           deposit_paid := normalizeBoolean (jsGetField vendor "deposit_paid"),
           deposit_date := normalizeDate (jsGetField vendor "deposit_date"),
           balance_due := balanceDue,
           final_payment_date := normalizeDate (jsGetField vendor "final_payment_date"),
           final_payment_paid := normalizeBoolean (jsGetField vendor "final_payment_paid"),
           status := canonicalStatus,
           contract_signed := normalizeBoolean (jsGetField vendor "contract_signed"),
           contract_date := normalizeDate (jsGetField vendor "contract_date"),
           service_date := normalizeDate (jsGetField vendor "service_date"),
           notes := toTrimmedString (jsGetField vendor "notes") }, ws1 ++ ws2)

/-- The `vendors.forEach` loop (session.js 357-420) with its `seen` set and
output accumulators.  Note the source computes the vendor type (which can
throw) before checking the name. -/
def sanitizeVendorsAux : List JsVal → Nat → List String → List VendorRec → List String →
    Except JsErr (List VendorRec × List String)
  | [], _, _, recs, ws => .ok (recs, ws)
  | vendor :: rest, i, seen, recs, ws =>
    if !jsTruthy vendor || jsTypeof vendor != "object" then
      sanitizeVendorsAux rest (i + 1) seen recs (ws ++ [vendorObjWarn i])
    else
      match canonicalizeVendorType (jsGetField vendor "vendor_type") with
      | .error e => .error e
      | .ok tyOpt =>
        match toTrimmedString (jsGetField vendor "vendor_name") with
        | none => sanitizeVendorsAux rest (i + 1) seen recs (ws ++ [vendorNameWarn i])
        | some vendorName =>
          match tyOpt with
          | none =>
            sanitizeVendorsAux rest (i + 1) seen recs
              (ws ++ [vendorTypeWarn vendorName (jsGetField vendor "vendor_type")])
          | some vendorType =>
            if seen.contains (vendorKey vendorType vendorName) then
              sanitizeVendorsAux rest (i + 1) seen recs (ws ++ [vendorDupWarn vendorName vendorType])
            else
              match buildVendor vendor vendorName vendorType with
              | .error e => .error e
              | .ok (r, bws) =>
                sanitizeVendorsAux rest (i + 1) (vendorKey vendorType vendorName :: seen)
                  (recs ++ [r]) (ws ++ bws)

/-- `sanitizeVendors` (session.js 348-423). -/
def sanitizeVendors (v : JsVal) : Except JsErr (List VendorRec × List String) :=
  match v with
  | .arr vs => if vs.isEmpty then .ok ([], []) else sanitizeVendorsAux vs 0 [] [] []
  | _ => .ok ([], [])

/-! ## Budget sanitizer (session.js 425-499) -/

structure BudgetRec where
  category : String
  budgeted_amount : Option Nat
  spent_amount : Option Nat
  transaction_date : Option String
  transaction_amount : Option Nat
  transaction_description : Option String
  notes : Option String
deriving Repr, DecidableEq

def emptyBudgetRec (c : String) : BudgetRec :=
  { category := c, budgeted_amount := none, spent_amount := none, transaction_date := none,
    transaction_amount := none, transaction_description := none, notes := none }

/-- The normalized fields of one accepted budget item. -/
structure BItem where
  category : String
  budgeted : Option Nat
  spent : Option Nat
  tdate : Option String
  tamount : Option Nat
  tdesc : Option String
  bnotes : Option String
deriving Repr, DecidableEq

/-- Field normalization of one budget item with a resolved category
(session.js 445-448, 481-489); every normalizer here is total. -/
def normalizeBudgetItem (item : JsVal) (category : String) : BItem :=
  { category := category,
    budgeted := normalizeCurrency (jsGetField item "budgeted_amount"),
    spent := normalizeCurrency (jsGetField item "spent_amount"),
    tdate := normalizeDate (jsGetField item "transaction_date"),
    tamount := normalizeCurrency (jsGetField item "transaction_amount"),
    tdesc := toTrimmedString (jsGetField item "transaction_description"),
    bnotes := toTrimmedString (jsGetField item "notes") }

/-- The merge of one accepted item into the accumulator entry for its
category (session.js 465-489): additive `spent_amount`, last-non-null
overwrite for the other fields. -/
def mergeInto (r : BudgetRec) (a : BItem) : BudgetRec :=
  let r1 := match a.budgeted with
    | some b => { r with budgeted_amount := some b }
    | none => r
  let r2 := match a.spent with
    | some sp => { r1 with spent_amount := some (r1.spent_amount.getD 0 + sp) }
    | none => r1
  let r3 := match a.tamount with
    | some t => { r2 with transaction_amount := some t }
    | none => r2
  let r4 := match a.tdate with
    | some d => { r3 with transaction_date := some d }
    | none => r3
  let r5 := match a.tdesc with
    | some d => { r4 with transaction_description := some d }
    | none => r4
  match a.bnotes with
  | some nts => { r5 with notes := some nts }
  | none => r5

/-- `Map.prototype.get` on the category accumulator. -/
def mapGetB (k : String) : List (String × BudgetRec) → Option BudgetRec
  | [] => none
  | (k', r) :: rest => if k' = k then some r else mapGetB k rest

/-- `Map.prototype.set`: overwrite preserving insertion position, or append. -/
def mapSetB (k : String) (r : BudgetRec) : List (String × BudgetRec) → List (String × BudgetRec)
  | [] => [(k, r)]
  | (k', r') :: rest => if k' = k then (k, r) :: rest else (k', r') :: mapSetB k r rest

def budgetObjWarn (i : Nat) : String :=
  "Skipped budget item at index " ++ natToString i ++ ": expected object."

def budgetCatWarn (i : Nat) (raw : JsVal) : String :=
  "Skipped budget item at index " ++ natToString i ++ ": unsupported category " ++
    quoteStr (jsDisplay raw) ++ "."

def budgetMoneyWarn (c : String) : String :=
  "Skipped budget item for category " ++ quoteStr c ++ ": no monetary values provided."

def budgetMergeWarn (c : String) : String :=
  "Merged duplicate budget category " ++ quoteStr c ++ "."

/-- The `budgetItems.forEach` loop (session.js 433-496) over the category
accumulator map. -/
def sanitizeBudgetItemsAux : List JsVal → Nat → List (String × BudgetRec) → List String →
    Except JsErr (List (String × BudgetRec) × List String)
  | [], _, agg, ws => .ok (agg, ws)
  | item :: rest, i, agg, ws =>
    if !jsTruthy item || jsTypeof item != "object" then
      sanitizeBudgetItemsAux rest (i + 1) agg (ws ++ [budgetObjWarn i])
    else
      match canonicalizeBudgetCategory (jsGetField item "category") with
      | .error e => .error e
      | .ok none =>
        sanitizeBudgetItemsAux rest (i + 1) agg (ws ++ [budgetCatWarn i (jsGetField item "category")])
      | .ok (some category) =>
        let a := normalizeBudgetItem item category
        if a.budgeted.isNone && a.spent.isNone && a.tamount.isNone then
          sanitizeBudgetItemsAux rest (i + 1) agg (ws ++ [budgetMoneyWarn category])
        else
          let merged := mergeInto ((mapGetB category agg).getD (emptyBudgetRec category)) a
          let ws' := if (mapGetB category agg).isSome then ws ++ [budgetMergeWarn category] else ws
          sanitizeBudgetItemsAux rest (i + 1) (mapSetB category merged agg) ws'

/-- `sanitizeBudgetItems` (session.js 425-499);
`Array.from(aggregated.values())` is the entry order of the accumulator. -/
def sanitizeBudgetItems (v : JsVal) : Except JsErr (List BudgetRec × List String) :=
  match v with
  | .arr items =>
    if items.isEmpty then .ok ([], [])
    else match sanitizeBudgetItemsAux items 0 [] [] with
      | .error e => .error e
      | .ok (agg, ws) => .ok (agg.map Prod.snd, ws)
  | _ => .ok ([], [])

example :
    sanitizeBudgetItems (.arr [.obj [("category", .str "flowers"), ("spent_amount", .num 200)],
      .obj [("category", .str "flowers"), ("spent_amount", .num 250)]]) =
    .ok ([{ emptyBudgetRec "flowers" with spent_amount := some 450 }],
      ["Merged duplicate budget category \"flowers\"."]) := by decide

/-! ## Task sanitizer (session.js 501-563) -/

structure TaskRec where
  task_name : String
  task_description : Option String
  category : Option String
  due_date : Option String
  status : Option String
  priority : Option String
  notes : Option String
deriving Repr, DecidableEq

/-- `taskDeterministicId` (session.js 106-108); the due date argument is the
normalized date, `'none'` when absent. -/
def taskDeterministicId (name : String) (dueDate : Option String) : String :=
  jsToLower name ++ "::" ++ dueDate.getD "none"

def taskObjWarn (i : Nat) : String :=
  "Skipped task at index " ++ natToString i ++ ": expected object."

def taskNameWarn (i : Nat) : String :=
  "Skipped task at index " ++ natToString i ++ ": missing task_name."

def taskDueWarn (name : String) : String :=
  "Removed invalid due_date for task " ++ quoteStr name ++ "."

def taskCatWarn (raw : JsVal) (name : String) : String :=
  "Dropped unsupported task category " ++ quoteStr (jsDisplay raw) ++ " for " ++ quoteStr name ++ "."

def taskStatusWarn (raw : JsVal) (name : String) : String :=
  "Dropped unsupported task status " ++ quoteStr (jsDisplay raw) ++ " for " ++ quoteStr name ++ "."

def taskPriorityWarn (raw : JsVal) (name : String) : String :=
  "Dropped unsupported task priority " ++ quoteStr (jsDisplay raw) ++ " for " ++ quoteStr name ++ "."

def taskDupWarn (name : String) (dueDate : Option String) : String :=
  "Skipped duplicate task " ++ quoteStr name ++ " with due date " ++ dueDate.getD "unspecified" ++ "."

/-- Due-date, category, status and priority handling for one named task
(session.js 522-542 and the field assembly of 551-559); the category, status
and priority reads can throw, and they run before the duplicate check. -/
def buildTask (task : JsVal) (name : String) : Except JsErr (TaskRec × List String) :=
  let dueDate := normalizeDate (jsGetField task "due_date")
  let ws1 := if jsTruthy (jsGetField task "due_date") && dueDate.isNone then [taskDueWarn name] else []
  match canonicalizeTaskCategory (jsGetField task "category") with
  | .error e => .error e
  | .ok category =>
    let ws2 :=
      if jsTruthy (jsGetField task "category") && category.isNone then
        [taskCatWarn (jsGetField task "category") name]
      else []
    match jsOptTrimLower (jsGetField task "status") with
    | .error e => .error e
    | .ok statusRaw =>
      let canonicalStatus := match statusRaw with
        | some st => if st != "" && taskStatuses.contains st then some st else none
        | none => none
      let ws3 := match statusRaw with
        | some st =>
          if st != "" && !(taskStatuses.contains st) then
            [taskStatusWarn (jsGetField task "status") name]
          else []
        | none => []
      match jsOptTrimLower (jsGetField task "priority") with
      | .error e => .error e
      | .ok priorityRaw =>
        let canonicalPriority := match priorityRaw with
          | some p => if p != "" && taskPriorities.contains p then some p else none
          | none => none
        let ws4 := match priorityRaw with
          | some p =>
            if p != "" && !(taskPriorities.contains p) then
              [taskPriorityWarn (jsGetField task "priority") name]
            else []
          | none => []
        .ok ({ task_name := name,
               task_description := toTrimmedString (jsGetField task "task_description"),
               category := category,
               due_date := dueDate,
               status := canonicalStatus,
               priority := canonicalPriority,
               notes := toTrimmedString (jsGetField task "notes") }, ws1 ++ ws2 ++ ws3 ++ ws4)

/-- The `tasks.forEach` loop (session.js 510-560): per-field warnings are
emitted even for tasks later skipped as duplicates, because the duplicate
check runs last. -/
def sanitizeTasksAux : List JsVal → Nat → List String → List TaskRec → List String →
    Except JsErr (List TaskRec × List String)
  | [], _, _, recs, ws => .ok (recs, ws)
  | task :: rest, i, seen, recs, ws =>
    if !jsTruthy task || jsTypeof task != "object" then
      sanitizeTasksAux rest (i + 1) seen recs (ws ++ [taskObjWarn i])
    else
      match toTrimmedString (jsGetField task "task_name") with
      | none => sanitizeTasksAux rest (i + 1) seen recs (ws ++ [taskNameWarn i])
      | some name =>
        match buildTask task name with
        | .error e => .error e
        | .ok (r, bws) =>
          if seen.contains (taskDeterministicId name r.due_date) then
            sanitizeTasksAux rest (i + 1) seen recs (ws ++ bws ++ [taskDupWarn name r.due_date])
          else
            sanitizeTasksAux rest (i + 1) (taskDeterministicId name r.due_date :: seen)
              (recs ++ [r]) (ws ++ bws)

/-- `sanitizeTasks` (session.js 501-563). -/
def sanitizeTasks (v : JsVal) : Except JsErr (List TaskRec × List String) :=
  match v with
  | .arr ts => if ts.isEmpty then .ok ([], []) else sanitizeTasksAux ts 0 [] [] []
  | _ => .ok ([], [])

/-! ## Orchestrator (session.js 565-615) -/

def MAX_EXTRACTED_JSON_CHARS : Nat := 12000

def sizeWarn : String :=
  "I received a very large set of details, so I skipped saving them to keep things stable."

def parseWarn : String :=
  "I could not read the structured details this time, so I did not save any changes. Could you share them again?"

structure PayloadResult where
  weddingInfo : List (String × WiVal)
  vendors : List VendorRec
  budgetItems : List BudgetRec
  tasks : List TaskRec
  warnings : List String
  parseError : Bool
deriving Repr, DecidableEq

def emptyPayloadResult : PayloadResult :=
  { weddingInfo := [], vendors := [], budgetItems := [], tasks := [], warnings := [],
    parseError := false }

/-- `processClaudePayload` (session.js 565-615), parametrized by the platform
`JSON.parse` (`none` models a parse exception; `parseError` records that the
caught error object was stored). -/
def processClaudePayload (parseJson : String → Option JsVal) (raw : JsVal) :
    Except JsErr PayloadResult :=
  if !jsTruthy raw || jsTypeof raw != "string" then .ok emptyPayloadResult
  else match raw with
    | .str s =>
      let trimmed := jsTrim s
      if trimmed = "" then .ok emptyPayloadResult
      else if MAX_EXTRACTED_JSON_CHARS < jsLength trimmed then
        .ok { emptyPayloadResult with warnings := [sizeWarn] }
      else match parseJson trimmed with
        | none => .ok { emptyPayloadResult with warnings := [parseWarn], parseError := true }
        | some parsed =>
          match jsMember parsed "wedding_info" with
          | .error e => .error e
          | .ok wiv =>
            let wi := sanitizeWeddingInfo wiv
            match jsMember parsed "vendors" with
            | .error e => .error e
            | .ok vv =>
              match sanitizeVendors vv with
              | .error e => .error e
              | .ok (vSan, vWs) =>
                match jsMember parsed "budget_items" with
                | .error e => .error e
                | .ok bv =>
                  match sanitizeBudgetItems bv with
                  | .error e => .error e
                  | .ok (bSan, bWs) =>
                    match jsMember parsed "tasks" with
                    | .error e => .error e
                    | .ok tv =>
                      match sanitizeTasks tv with
                      | .error e => .error e
                      | .ok (tSan, tWs) =>
                        .ok { weddingInfo := wi.1, vendors := vSan, budgetItems := bSan,
                              tasks := tSan, warnings := wi.2 ++ vWs ++ bWs ++ tWs,
                              parseError := false }
    | _ => .ok emptyPayloadResult

/-! ## End-to-end sanity checks (examples) -/

example :
    sanitizeVendors (.arr [.obj [("vendor_type", .str "photo"), ("vendor_name", .str "Lens & Co")],
      .obj [("vendor_type", .str "photography"), ("vendor_name", .str "LENS & CO ")]]) =
    .ok ([{ vendor_type := "photographer", vendor_name := "Lens & Co",
            vendor_contact_name := none, vendor_email := none, vendor_phone := none,
            total_cost := none, deposit_amount := none, deposit_paid := none,
            deposit_date := none, balance_due := none, final_payment_date := none,
            final_payment_paid := none, status := none, contract_signed := none,
            contract_date := none, service_date := none, notes := none }],
      ["Skipped vendor \"LENS & CO\" (photographer): duplicate entry."]) := by decide

example :
    sanitizeVendors (.arr [.obj [("vendor_type", .str "florist"), ("vendor_name", .str "Rosa"),
      ("total_cost", .num 100), ("deposit_amount", .num 150)]]) =
    .ok ([{ vendor_type := "florist", vendor_name := "Rosa",
            vendor_contact_name := none, vendor_email := none, vendor_phone := none,
            total_cost := some 100, deposit_amount := some 100, deposit_paid := none,
            deposit_date := none, balance_due := none, final_payment_date := none,
            final_payment_paid := none, status := none, contract_signed := none,
            contract_date := none, service_date := none, notes := none }],
      ["Adjusted deposit for vendor \"Rosa\" to not exceed total_cost."]) := by decide

example :
    (sanitizeTasks (.arr [.obj [("task_name", .str "Send invites"), ("due_date", .str "2025-05-01")],
      .obj [("task_name", .str "send invites"), ("due_date", .str "2025-05-01")],
      .obj [("task_name", .str "Send invites"), ("due_date", .str "2025-06-01")]])).map
        (fun p => (p.1.map TaskRec.task_name, p.2)) =
    .ok (["Send invites", "Send invites"],
      ["Skipped duplicate task \"send invites\" with due date 2025-05-01."]) := by decide

example :
    processClaudePayload (fun _ => none) (.str "\x7bbad json") =
    .ok { emptyPayloadResult with warnings := [parseWarn], parseError := true } := by decide

example :
    processClaudePayload (fun s => if s = "null" then some .null else none) (.str "null") =
    .error (.typeError "Cannot read properties of null (reading wedding_info)") := by decide

/-! ## General helper lemmas -/

theorem trimChars_of_noWs (l : List Char) (h : ∀ c ∈ l, isJsWhitespace c = false) :
    trimChars l = l := by
  unfold trimChars
  have h1 : l.dropWhile isJsWhitespace = l := by
    cases l with
    | nil => rfl
    | cons c rest => rw [List.dropWhile_cons_of_neg (by simp [h c (by simp)])]
  rw [h1]
  have h2 : l.reverse.dropWhile isJsWhitespace = l.reverse := by
    cases hr : l.reverse with
    | nil => rfl
    | cons c rest =>
      have hc : c ∈ l := by
        have : c ∈ l.reverse := by rw [hr]; simp
        simpa using this
      rw [List.dropWhile_cons_of_neg (by simp [h c hc])]
  rw [h2, List.reverse_reverse]

theorem jsTrim_of_noWs (s : String) (h : ∀ c ∈ s.data, isJsWhitespace c = false) :
    jsTrim s = s := by
  unfold jsTrim
  rw [trimChars_of_noWs s.data h]

theorem isPrefixOf_append_self (l t : List Char) : l.isPrefixOf (l ++ t) = true := by
  induction l with
  | nil => simp [List.isPrefixOf]
  | cons c rest ih => simp [List.isPrefixOf, ih]

/-! ## Claim C1: the pipeline can throw on JSON with non-string enum fields -/

/-- A well-formed JSON document whose single vendor has a numeric
`vendor_type`. -/
def c1FailingInput : String :=
  "\x7b\"vendors\":[\x7b\"vendor_name\":\"Lens & Co\",\"vendor_type\":7\x7d]\x7d"

/-- The value `JSON.parse` produces for `c1FailingInput`. -/
def c1ParsedValue : JsVal :=
  .obj [("vendors", .arr [.obj [("vendor_name", .str "Lens & Co"), ("vendor_type", .num 7)]])]

/-- A parse function agreeing with `JSON.parse` on the one document used. -/
def c1Parse : String → Option JsVal :=
  fun s => if s = c1FailingInput then some c1ParsedValue else none

/-- Claim C1 (code bug): `processClaudePayload` is claimed never to throw, for
any input including JSON documents with non-string `vendor_type` values; but
on this well-formed document with a numeric `vendor_type` the pipeline
evaluates `value.trim()` on a number inside `canonicalizeVendorType` and the
resulting `TypeError` escapes.  (The same happens for truthy non-string
`status`, `priority` and `category` fields, and for the document `"null"`,
whose parse result makes `parsed.wedding_info` throw.) -/
theorem claim_C1_throws_on_numeric_vendor_type :
    processClaudePayload c1Parse (.str c1FailingInput) =
      .error (.typeError "value.trim is not a function") ∧
    processClaudePayload (fun s => if s = "null" then some .null else none) (.str "null") =
      .error (.typeError "Cannot read properties of null (reading wedding_info)") := by
  constructor
  · decide
  · decide

/-! ## Claim C2: size cap and parse failure short-circuits -/

/-- Claim C2: an input whose trimmed form is longer than
`MAX_EXTRACTED_JSON_CHARS` yields exactly the zero-value result plus the one
size warning with no parse error, for *every* parse function (so the parser is
never consulted); an input of acceptable nonempty length on which the parser
fails yields exactly the zero-value result with the parse-error indicator set
and the one parse warning. -/
theorem claim_C2_size_and_parse_shortcircuit (parseJson : String → Option JsVal) (s : String) :
    (MAX_EXTRACTED_JSON_CHARS < jsLength (jsTrim s) →
      processClaudePayload parseJson (.str s) =
        .ok { emptyPayloadResult with warnings := [sizeWarn] }) ∧
    (jsTrim s ≠ "" → jsLength (jsTrim s) ≤ MAX_EXTRACTED_JSON_CHARS →
      parseJson (jsTrim s) = none →
      processClaudePayload parseJson (.str s) =
        .ok { emptyPayloadResult with warnings := [parseWarn], parseError := true }) := by
  have hemp : jsTrim "" = "" := rfl
  constructor
  · intro hlen
    have htne : jsTrim s ≠ "" := by
      intro h
      rw [h] at hlen
      simp [jsLength] at hlen
    have hsne : s ≠ "" := by
      intro h
      rw [h, hemp] at htne
      exact htne rfl
    simp only [processClaudePayload, jsTruthy, jsTypeof, bne_self_eq_false, Bool.or_false]
    rw [if_neg (by simp [hsne]), if_neg htne, if_pos hlen]
  · intro htne hlen hparse
    have hsne : s ≠ "" := by
      intro h
      rw [h, hemp] at htne
      exact htne rfl
    simp only [processClaudePayload, jsTruthy, jsTypeof, bne_self_eq_false, Bool.or_false]
    rw [if_neg (by simp [hsne]), if_neg htne, if_neg (by omega), hparse]

/-- Witness for C2 at concrete inputs: a 12001-character input takes the size
branch (with a parser that would accept everything, showing the parser is not
consulted), and `"{bad json"` with a failing parser takes the parse-error
branch. -/
theorem claim_C2_witness :
    processClaudePayload (fun _ => some (.obj [])) (.str ⟨List.replicate 12001 'x'⟩) =
      .ok { emptyPayloadResult with warnings := [sizeWarn] } ∧
    processClaudePayload (fun _ => none) (.str "\x7bbad json") =
      .ok { emptyPayloadResult with warnings := [parseWarn], parseError := true } := by
  constructor
  · refine (claim_C2_size_and_parse_shortcircuit _ _).1 ?_
    have hdata : (⟨List.replicate 12001 'x'⟩ : String).data = List.replicate 12001 'x' := rfl
    have : jsTrim ⟨List.replicate 12001 'x'⟩ = ⟨List.replicate 12001 'x'⟩ := by
      apply jsTrim_of_noWs
      intro c hc
      rw [hdata] at hc
      have := List.eq_of_mem_replicate hc
      subst this
      decide
    rw [this]
    show MAX_EXTRACTED_JSON_CHARS < (List.replicate 12001 'x').length
    rw [List.length_replicate]
    norm_num [MAX_EXTRACTED_JSON_CHARS]
  · refine (claim_C2_size_and_parse_shortcircuit _ _).2 ?_ ?_ rfl
    · decide
    · decide

/-! ## Claim C9: date round-trip -/

theorem dateParts_chars_not_ws (l : List Char) (y m d : Nat)
    (h : dateParts l = some (y, m, d)) : ∀ c ∈ l, isJsWhitespace c = false := by
  unfold dateParts at h
  split at h
  · rename_i y1 y2 y3 y4 m1 m2 d1 d2
    split at h
    · rename_i hdig
      simp only [Bool.and_eq_true] at hdig
      intro c hc
      have hdigit : ∀ x : Char, isDigitChar x = true → isJsWhitespace x = false := by
        intro x hx
        by_contra hw
        simp only [Bool.not_eq_false] at hw
        simp only [isJsWhitespace, Bool.or_eq_true, decide_eq_true_eq] at hw
        rcases hw with ((((h1 | h1) | h1) | h1) | h1) | h1 <;> subst h1 <;> simp [isDigitChar] at hx
      have hdash : isJsWhitespace '-' = false := by decide
      simp only [List.mem_cons, List.not_mem_nil, or_false] at hc
      rcases hc with rfl | rfl | rfl | rfl | rfl | rfl | rfl | rfl | rfl | rfl <;>
        first
          | exact hdash
          | exact hdigit _ (by tauto)
    · exact absurd h (by simp)
  · exact absurd h (by simp)

theorem dateParts_ne_nil (l : List Char) (y m d : Nat)
    (h : dateParts l = some (y, m, d)) : l ≠ [] := by
  intro hnil
  subst hnil
  simp [dateParts] at h

/-- Claim C9 (amended): the shape test is applied to the *trimmed* input.
Every string whose trimmed form matches `YYYY-MM-DD` and denotes a real
calendar day yields the trimmed string — hence the identical string whenever
the input itself matches the shape (round-trip identity); a string whose
trimmed form has an out-of-range month or day, or does not match the shape at
all, is rejected. -/
theorem claim_C9_date_roundtrip (s : String) :
    (∀ y m d, dateParts (jsTrim s).data = some (y, m, d) → isRealDate y m d = true →
      normalizeDate (.str s) = some (jsTrim s)) ∧
    (∀ y m d, dateParts s.data = some (y, m, d) → isRealDate y m d = true →
      normalizeDate (.str s) = some s) ∧
    (∀ y m d, dateParts (jsTrim s).data = some (y, m, d) → isRealDate y m d = false →
      normalizeDate (.str s) = none) ∧
    (dateParts (jsTrim s).data = none → normalizeDate (.str s) = none) := by
  refine ⟨?_, ?_, ?_, ?_⟩
  · intro y m d hshape hreal
    by_cases hne : s = ""
    · subst hne
      have hd : (jsTrim "").data = [] := rfl
      rw [hd] at hshape
      exact absurd hshape (by simp [dateParts])
    · have htne : jsTrim s ≠ "" := by
        intro h
        exact dateParts_ne_nil (jsTrim s).data y m d hshape (by simp [h])
      simp only [normalizeDate, jsTruthy]
      rw [if_neg (by simp [hne]), if_neg htne, hshape]
      simp [hreal]
  · intro y m d hshape hreal
    have htrim : jsTrim s = s := jsTrim_of_noWs s (dateParts_chars_not_ws s.data y m d hshape)
    have hne : s ≠ "" := by
      intro h
      exact dateParts_ne_nil s.data y m d hshape (by simp [h])
    simp only [normalizeDate, jsTruthy, htrim]
    rw [if_neg (by simp [hne]), if_neg hne, hshape]
    simp [hreal]
  · intro y m d hshape hreal
    by_cases hne : s = ""
    · subst hne; rfl
    · have htne : jsTrim s ≠ "" := by
        intro h
        exact dateParts_ne_nil (jsTrim s).data y m d hshape (by simp [h])
      simp only [normalizeDate, jsTruthy]
      rw [if_neg (by simp [hne]), if_neg htne, hshape]
      simp [hreal]
  · intro hshape
    by_cases hne : s = ""
    · subst hne; rfl
    · by_cases htne : jsTrim s = ""
      · simp only [normalizeDate, jsTruthy]
        rw [if_neg (by simp [hne]), if_pos htne]
      · simp only [normalizeDate, jsTruthy]
        rw [if_neg (by simp [hne]), if_neg htne, hshape]

/-- Witness for C9: the real date `2024-02-29` round-trips; its
whitespace-padded form yields the trimmed string; the impossible date
`2023-02-29` and the non-matching `2025-9-2` are rejected. -/
theorem claim_C9_witness :
    normalizeDate (.str " 2024-02-29 ") = some "2024-02-29" ∧
    normalizeDate (.str "2024-02-29") = some "2024-02-29" ∧
    normalizeDate (.str "2023-02-29") = none ∧
    normalizeDate (.str "2025-9-2") = none := by
  refine ⟨?_, ?_, ?_, ?_⟩
  · exact ((claim_C9_date_roundtrip " 2024-02-29 ").1 2024 2 29 (by decide)
      (by decide)).trans (by decide)
  · exact (claim_C9_date_roundtrip "2024-02-29").2.1 2024 2 29 (by decide) (by decide)
  · exact (claim_C9_date_roundtrip "2023-02-29").2.2.1 2023 2 29 (by decide) (by decide)
  · exact (claim_C9_date_roundtrip "2025-9-2").2.2.2 (by decide)

/-- Counterexample for C9 as stated: `" 2023-01-05"` does not match the
4-digit-year/2-digit-month/2-digit-day shape (the claim requires such a string
to yield no value), yet the normalizer trims first and returns a value — which
is, moreover, not the identical input string. -/
theorem claim_C9_counterexample :
    dateParts " 2023-01-05".data = none ∧
    normalizeDate (.str " 2023-01-05") = some "2023-01-05" ∧
    (" 2023-01-05" : String) ≠ "2023-01-05" := by
  refine ⟨by decide, by decide, by decide⟩

/-! ## Claim C5: time-of-day output shape -/

theorem char_toNat_le {a b : Char} (h : a ≤ b) : a.toNat ≤ b.toNat := h

theorem char_le_of_toNat {a b : Char} (h : a.toNat ≤ b.toNat) : a ≤ b := h

theorem isDigitChar_bounds {c : Char} (h : isDigitChar c = true) :
    48 ≤ c.toNat ∧ c.toNat ≤ 57 := by
  simp only [isDigitChar, Bool.and_eq_true, decide_eq_true_eq] at h
  exact ⟨char_toNat_le h.1, char_toNat_le h.2⟩

theorem isDigitChar_of_bounds {c : Char} (h1 : 48 ≤ c.toNat) (h2 : c.toNat ≤ 57) :
    isDigitChar c = true := by
  simp only [isDigitChar, Bool.and_eq_true, decide_eq_true_eq]
  exact ⟨char_le_of_toNat h1, char_le_of_toNat h2⟩

theorem digitVal_eq {c : Char} : digitVal c = c.toNat - 48 := rfl

theorem digitVal_le_of_digit {c : Char} (h : isDigitChar c = true) : digitVal c ≤ 9 := by
  obtain ⟨h1, h2⟩ := isDigitChar_bounds h
  rw [digitVal_eq]
  omega

theorem digitChar_toNat (n : Nat) : (digitChar n).toNat = 48 + n % 10 := by
  unfold digitChar
  unfold Char.ofNat
  rw [dif_pos (Or.inl (by omega : 48 + n % 10 < 55296))]
  rfl

theorem digitChar_isDigit (n : Nat) : isDigitChar (digitChar n) = true := by
  apply isDigitChar_of_bounds <;> rw [digitChar_toNat] <;> omega

theorem natToCharsAux_all_digits (fuel n : Nat) :
    (natToCharsAux fuel n).all isDigitChar = true := by
  induction fuel generalizing n with
  | zero => rfl
  | succ fuel ih =>
    unfold natToCharsAux
    by_cases h : n < 10
    · simp [h, digitChar_isDigit]
    · simp [h, digitChar_isDigit, ih]

theorem natToCharsAux_ne_nil (fuel n : Nat) (h : fuel ≠ 0) : natToCharsAux fuel n ≠ [] := by
  cases fuel with
  | zero => exact absurd rfl h
  | succ fuel =>
    unfold natToCharsAux
    by_cases h10 : n < 10 <;> simp [h10]

theorem natToCharsAux_short (fuel n : Nat) (h : n ≤ 9) :
    (natToCharsAux fuel n).length ≤ 1 := by
  cases fuel with
  | zero => simp [natToCharsAux]
  | succ fuel =>
    unfold natToCharsAux
    rw [if_pos (by omega)]
    simp

theorem natToCharsAux_length_le2 (fuel n : Nat) (h : n ≤ 99) :
    (natToCharsAux fuel n).length ≤ 2 := by
  cases fuel with
  | zero => simp [natToCharsAux]
  | succ fuel =>
    unfold natToCharsAux
    by_cases h10 : n < 10
    · simp [h10]
    · rw [if_neg h10]
      have := natToCharsAux_short fuel (n / 10) (by omega)
      simp only [List.length_append, List.length_cons, List.length_nil]
      omega

theorem natToString_all_digits (n : Nat) : (natToString n).data.all isDigitChar = true :=
  natToCharsAux_all_digits (n + 1) n

theorem natToString_ne_nil (n : Nat) : (natToString n).data ≠ [] :=
  natToCharsAux_ne_nil (n + 1) n (by omega)

theorem natToString_length_le2 (n : Nat) (h : n ≤ 99) : (natToString n).data.length ≤ 2 :=
  natToCharsAux_length_le2 (n + 1) n h

theorem pad2_all_digits (l : List Char) (h : l.all isDigitChar = true) :
    (pad2 l).all isDigitChar = true := by
  unfold pad2
  by_cases hl : l.length = 1 <;> simp [hl, h] <;> decide

theorem pad2_length_two (l : List Char) (h1 : l ≠ []) (h2 : l.length ≤ 2) :
    (pad2 l).length = 2 := by
  unfold pad2
  by_cases hl : l.length = 1
  · simp [hl]
  · rw [if_neg hl]
    have : l.length ≠ 0 := by simpa using h1
    omega

theorem pad2_length_ge_two (l : List Char) (h1 : l ≠ []) : 2 ≤ (pad2 l).length := by
  unfold pad2
  by_cases hl : l.length = 1
  · simp [hl]
  · rw [if_neg hl]
    have : l.length ≠ 0 := by simpa using h1
    omega

theorem takeWhile_append_digits (l1 l2 : List Char) (h : l1.all isDigitChar = true) :
    (l1 ++ l2).takeWhile isDigitChar = l1 ++ l2.takeWhile isDigitChar ∧
    (l1 ++ l2).dropWhile isDigitChar = l2.dropWhile isDigitChar := by
  induction l1 with
  | nil => simp
  | cons c rest ih =>
    simp only [List.all_cons, Bool.and_eq_true] at h
    simp only [List.cons_append, List.takeWhile_cons, List.dropWhile_cons, h.1]
    simpa using ih h.2

/-- Shape of every non-rejected output: an all-digit hour of at least two
characters, a colon, and exactly two digit characters of minutes. -/
def hhmmShape (l : List Char) : Bool :=
  2 ≤ (l.takeWhile isDigitChar).length &&
    (match l.dropWhile isDigitChar with
     | [':', a, b] => isDigitChar a && isDigitChar b
     | _ => false)

/-- A valid 24-hour clock reading `HH:MM`. -/
def isValidHHMM : List Char → Bool
  | [a, b, ':', c, d] => hourPairOk a b && minutePairOk c d
  | _ => false

theorem hhmmShape_of_parts (h m : List Char) (hh : h.all isDigitChar = true)
    (hhl : 2 ≤ h.length) (hm : m.all isDigitChar = true) (hml : m.length = 2) :
    hhmmShape (h ++ ':' :: m) = true := by
  unfold hhmmShape
  obtain ⟨ht, hd⟩ := takeWhile_append_digits h (':' :: m) hh
  rw [ht, hd]
  have hcolon : isDigitChar ':' = false := by decide
  rw [List.takeWhile_cons_of_neg (by simp [hcolon]), List.dropWhile_cons_of_neg (by simp [hcolon])]
  match m, hml with
  | [a, b], _ =>
    simp only [List.all_cons, List.all_nil, Bool.and_eq_true, Bool.and_true] at hm
    simp [hm.1, hm.2, hhl]

theorem hourPairOk_digits {a b : Char} (h : hourPairOk a b = true) :
    isDigitChar a = true ∧ isDigitChar b = true := by
  have e0 : ('0' : Char).toNat = 48 := rfl
  have e3 : ('3' : Char).toNat = 51 := rfl
  simp only [hourPairOk, Bool.or_eq_true, Bool.and_eq_true, decide_eq_true_eq] at h
  rcases h with ⟨h1 | h1, h2⟩ | ⟨h1, h2, h3⟩
  · subst h1; exact ⟨by decide, h2⟩
  · subst h1; exact ⟨by decide, h2⟩
  · subst h1
    refine ⟨by decide, isDigitChar_of_bounds ?_ ?_⟩
    · have := char_toNat_le h2; omega
    · have := char_toNat_le h3; omega

theorem minutePairOk_digits {a b : Char} (h : minutePairOk a b = true) :
    isDigitChar a = true ∧ isDigitChar b = true := by
  have e0 : ('0' : Char).toNat = 48 := rfl
  have e5 : ('5' : Char).toNat = 53 := rfl
  simp only [minutePairOk, Bool.and_eq_true, decide_eq_true_eq] at h
  obtain ⟨⟨h1, h2⟩, h3⟩ := h
  refine ⟨isDigitChar_of_bounds ?_ ?_, h3⟩
  · have := char_toNat_le h1; omega
  · have := char_toNat_le h2; omega

theorem matchDirect_cases {l h m : List Char} (hm : matchDirect l = some (h, m)) :
    ∃ a b c d, h = [a, b] ∧ m = [c, d] ∧ hourPairOk a b = true ∧ minutePairOk c d = true := by
  unfold matchDirect at hm
  split at hm
  · split at hm
    · rename_i hg
      simp only [Bool.and_eq_true] at hg
      injection hm with h1
      injection h1 with h2 h3
      subst h2; subst h3
      refine ⟨_, _, _, _, rfl, rfl, ?_, hg.1.2⟩
      simp [hourPairOk, hg.1.1]
    · exact absurd hm (by simp)
  · split at hm
    · rename_i hg
      simp only [Bool.and_eq_true] at hg
      injection hm with h1
      injection h1 with h2 h3
      subst h2; subst h3
      exact ⟨_, _, _, _, rfl, rfl, hg.1.1, hg.1.2⟩
    · exact absurd hm (by simp)
  · exact absurd hm (by simp)

theorem emb24After_cases {rest m : List Char} (h : emb24After rest = some m) :
    ∃ a b, m = [a, b] ∧ minutePairOk a b = true := by
  unfold emb24After at h
  split at h
  · split at h
    · rename_i hg
      simp only [Bool.and_eq_true] at hg
      injection h with h1
      subst h1
      exact ⟨_, _, rfl, hg.1⟩
    · exact absurd h (by simp)
  · exact absurd h (by simp)

theorem emb24AtPos_cases {c : Char} {rest : List Char} {h m : List Char}
    (hp : emb24AtPos c rest = some (h, m)) :
    (∃ a b, pad2 h = [a, b] ∧ hourPairOk a b = true) ∧
    (∃ a b, m = [a, b] ∧ minutePairOk a b = true) := by
  have htwo : ∀ hx mx, emb24Two c rest = some (hx, mx) →
      (∃ a b, pad2 hx = [a, b] ∧ hourPairOk a b = true) ∧
      (∃ a b, mx = [a, b] ∧ minutePairOk a b = true) := by
    intro hx mx hq
    unfold emb24Two at hq
    split at hq
    · rename_i d rest2
      split at hq
      · rename_i hg
        simp only [Bool.and_eq_true, Bool.or_eq_true, decide_eq_true_eq] at hg
        rw [Option.map_eq_some'] at hq
        obtain ⟨mm, hmm, hf⟩ := hq
        injection hf with hh hmn
        subst hh; subst hmn
        obtain ⟨a, b, rfl, hab⟩ := emb24After_cases hmm
        refine ⟨⟨c, d, by simp [pad2], ?_⟩, ⟨a, b, rfl, hab⟩⟩
        rcases hg.1 with rfl | rfl <;> simp [hourPairOk, hg.2]
      · exact absurd hq (by simp)
    · exact absurd hq (by simp)
  have hone : ∀ hx mx, emb24One c rest = some (hx, mx) →
      (∃ a b, pad2 hx = [a, b] ∧ hourPairOk a b = true) ∧
      (∃ a b, mx = [a, b] ∧ minutePairOk a b = true) := by
    intro hx mx hq
    unfold emb24One at hq
    split at hq
    · rename_i hc
      rw [Option.map_eq_some'] at hq
      obtain ⟨mm, hmm, hf⟩ := hq
      injection hf with hh hmn
      subst hh; subst hmn
      obtain ⟨a, b, rfl, hab⟩ := emb24After_cases hmm
      exact ⟨⟨'0', c, by simp [pad2], by simp [hourPairOk, hc]⟩, ⟨a, b, rfl, hab⟩⟩
    · exact absurd hq (by simp)
  have hthree : ∀ hx mx, emb24TwoThree c rest = some (hx, mx) →
      (∃ a b, pad2 hx = [a, b] ∧ hourPairOk a b = true) ∧
      (∃ a b, mx = [a, b] ∧ minutePairOk a b = true) := by
    intro hx mx hq
    unfold emb24TwoThree at hq
    split at hq
    · rename_i d rest2
      split at hq
      · rename_i hg
        simp only [Bool.and_eq_true, decide_eq_true_eq] at hg
        rw [Option.map_eq_some'] at hq
        obtain ⟨mm, hmm, hf⟩ := hq
        injection hf with hh hmn
        subst hh; subst hmn
        obtain ⟨a, b, rfl, hab⟩ := emb24After_cases hmm
        obtain ⟨rfl, hd⟩ := hg
        refine ⟨⟨'2', d, by simp [pad2], ?_⟩, ⟨a, b, rfl, hab⟩⟩
        simp [hourPairOk, hd.1, hd.2]
      · exact absurd hq (by simp)
    · exact absurd hq (by simp)
  unfold emb24AtPos at hp
  split at hp
  · rename_i r hr
    injection hp with h1
    subst h1
    exact htwo _ _ hr
  · split at hp
    · rename_i r hr
      injection hp with h1
      subst h1
      exact hone _ _ hr
    · exact hthree _ _ hp

theorem emb24Scan_cases {prevW : Bool} {l : List Char} {h m : List Char}
    (hs : emb24Scan prevW l = some (h, m)) :
    (∃ a b, pad2 h = [a, b] ∧ hourPairOk a b = true) ∧
    (∃ a b, m = [a, b] ∧ minutePairOk a b = true) := by
  induction l generalizing prevW with
  | nil => simp [emb24Scan] at hs
  | cons c rest ih =>
    unfold emb24Scan at hs
    split at hs
    · rename_i r hr
      injection hs with h1
      subst h1
      split at hr
      · exact absurd hr (by simp)
      · exact emb24AtPos_cases hr
    · exact ih hs

theorem embHourAtPos_bounds {c : Char} {rest : List Char} {h : Nat}
    (hp : embHourAtPos c rest = some h) : 1 ≤ h ∧ h ≤ 12 := by
  have e1 : ('1' : Char).toNat = 49 := rfl
  have e9 : ('9' : Char).toNat = 57 := rfl
  have e0 : ('0' : Char).toNat = 48 := rfl
  have e2 : ('2' : Char).toNat = 50 := rfl
  unfold embHourAtPos at hp
  split at hp
  · rename_i hg
    simp only [Bool.and_eq_true, decide_eq_true_eq] at hg
    injection hp with h1
    subst h1
    have g1 := char_toNat_le hg.1.1
    have g2 := char_toNat_le hg.1.2
    rw [digitVal_eq]
    omega
  · split at hp
    · split at hp
      · split at hp
        · rename_i hg
          simp only [Bool.and_eq_true, decide_eq_true_eq] at hg
          injection hp with h1
          subst h1
          have g1 := char_toNat_le hg.1.1
          have g2 := char_toNat_le hg.1.2
          rw [digitVal_eq]
          omega
        · exact absurd hp (by simp)
      · exact absurd hp (by simp)
    · exact absurd hp (by simp)

theorem embHourScan_bounds {prevW : Bool} {l : List Char} {h : Nat}
    (hs : embHourScan prevW l = some h) : 1 ≤ h ∧ h ≤ 12 := by
  induction l generalizing prevW with
  | nil => simp [embHourScan] at hs
  | cons c rest ih =>
    unfold embHourScan at hs
    split at hs
    · rename_i r hr
      injection hs with h1
      subst h1
      split at hr
      · exact absurd hr (by simp)
      · exact embHourAtPos_bounds hr
    · exact ih hs

theorem toNat2_le {a b : Char} (ha : isDigitChar a = true) (hb : isDigitChar b = true) :
    toNat2 a b ≤ 99 := by
  have g1 := digitVal_le_of_digit ha
  have g2 := digitVal_le_of_digit hb
  unfold toNat2
  omega

theorem ampmColonAt_le {rest : List Char} {m : Nat} {rest2 : List Char}
    (h : ampmColonAt rest = some (m, rest2)) : m ≤ 99 := by
  unfold ampmColonAt at h
  split at h
  · split at h
    · rename_i hg
      simp only [Bool.and_eq_true] at hg
      injection h with h1
      injection h1 with h2 h3
      subst h2
      exact toNat2_le hg.1 hg.2
    · exact absurd h (by simp)
  · exact absurd h (by simp)

theorem ampmAfterHour_spec {hr : Nat} {rest : List Char} {h m : Nat} {pm : Bool}
    (hp : ampmAfterHour hr rest = some (h, m, pm)) : h = hr ∧ m ≤ 99 := by
  have hnc : ∀ r : List Char, ampmNoColon hr r = some (h, m, pm) → h = hr ∧ m ≤ 99 := by
    intro r hq
    unfold ampmNoColon at hq
    split at hq
    · injection hq with h1
      injection h1 with h2 h3
      injection h3 with h4 h5
      subst h2; subst h4
      exact ⟨rfl, by omega⟩
    · exact absurd hq (by simp)
  unfold ampmAfterHour at hp
  split at hp
  · rename_i mv rest2 hcolon
    split at hp
    · injection hp with h1
      injection h1 with h2 h3
      injection h3 with h4 h5
      subst h2; subst h4
      exact ⟨rfl, ampmColonAt_le hcolon⟩
    · exact hnc rest hp
  · exact hnc rest hp

theorem ampmAtPos_bounds {c : Char} {rest : List Char} {h m : Nat} {pm : Bool}
    (hc : isDigitChar c = true) (hp : ampmAtPos c rest = some (h, m, pm)) :
    h ≤ 99 ∧ m ≤ 99 := by
  have hone : ∀ r : List Char, ampmAfterHour (digitVal c) r = some (h, m, pm) →
      h ≤ 99 ∧ m ≤ 99 := by
    intro r hq
    obtain ⟨rfl, hm⟩ := ampmAfterHour_spec hq
    exact ⟨by have := digitVal_le_of_digit hc; omega, hm⟩
  unfold ampmAtPos at hp
  split at hp
  · rename_i d rest2
    split at hp
    · rename_i hd
      split at hp
      · rename_i r hr
        injection hp with h1
        subst h1
        obtain ⟨rfl, hm⟩ := ampmAfterHour_spec hr
        exact ⟨toNat2_le hc hd, hm⟩
      · exact hone _ hp
    · exact hone _ hp
  · exact hone _ hp

theorem ampmScan_bounds {l : List Char} {h m : Nat} {pm : Bool}
    (hs : ampmScan l = some (h, m, pm)) : h ≤ 99 ∧ m ≤ 99 := by
  induction l with
  | nil => simp [ampmScan] at hs
  | cons c rest ih =>
    unfold ampmScan at hs
    split at hs
    · rename_i r hr
      injection hs with h1
      subst h1
      split at hr
      · rename_i hc
        exact ampmAtPos_bounds hc hr
      · exact absurd hr (by simp)
    · exact ih hs

theorem ampmAdjust_le {h : Nat} (hh : h ≤ 99) (pm : Bool) : ampmAdjust h pm ≤ 111 := by
  unfold ampmAdjust
  split <;> split <;> omega

theorem renderNat2_digits (n : Nat) : (renderNat2 n).all isDigitChar = true := by
  unfold renderNat2
  exact pad2_all_digits _ (natToString_all_digits n)

theorem renderNat2_len_ge2 (n : Nat) : 2 ≤ (renderNat2 n).length := by
  unfold renderNat2
  exact pad2_length_ge_two _ (natToString_ne_nil n)

theorem renderNat2_len_two (n : Nat) (h : n ≤ 99) : (renderNat2 n).length = 2 := by
  unfold renderNat2
  exact pad2_length_two _ (natToString_ne_nil n) (natToString_length_le2 n h)

/-- Case analysis on which branch of `formatWeddingTimeForSupabase` produced a
result for a string input. -/
theorem formatTime_branches (s t : String)
    (h : formatWeddingTimeForSupabase (.str s) = some t) :
    (t = "12:00" ∨ t = "00:00") ∨
    (∃ hr m, matchDirect (jsToLower (jsTrim s)).data = some (hr, m) ∧ t = ⟨hr ++ ':' :: m⟩) ∨
    (∃ hh mm pm, ampmScan (jsToLower (jsTrim s)).data = some (hh, mm, pm) ∧
      t = ⟨renderNat2 (ampmAdjust hh pm) ++ ':' :: renderNat2 mm⟩) ∨
    (∃ hr m, emb24Scan false (jsToLower (jsTrim s)).data = some (hr, m) ∧
      t = ⟨pad2 hr ++ ':' :: m⟩) ∨
    (∃ hh, embHourScan false (jsToLower (jsTrim s)).data = some hh ∧ 1 ≤ hh ∧ hh ≤ 12 ∧
      t = ⟨renderNat2 hh ++ [':', '0', '0']⟩) := by
  unfold formatWeddingTimeForSupabase at h
  split at h
  · exact absurd h (by simp)
  · simp only [] at h
    split at h
    · exact absurd h (by simp)
    · split at h
      · injection h with h1
        exact Or.inl (Or.inl h1.symm)
      · split at h
        · injection h with h1
          exact Or.inl (Or.inr h1.symm)
        · split at h
          · rename_i hrv mrv hq
            injection h with h1
            exact Or.inr (Or.inl ⟨hrv, mrv, hq, h1.symm⟩)
          · split at h
            · rename_i hhv mmv pmv hq
              injection h with h1
              exact Or.inr (Or.inr (Or.inl ⟨hhv, mmv, pmv, hq, h1.symm⟩))
            · split at h
              · rename_i hrv mrv hq
                injection h with h1
                exact Or.inr (Or.inr (Or.inr (Or.inl ⟨hrv, mrv, hq, h1.symm⟩)))
              · split at h
                · rename_i hh hq
                  split at h
                  · rename_i hle
                    injection h with h1
                    obtain ⟨g1, g2⟩ := embHourScan_bounds hq
                    exact Or.inr (Or.inr (Or.inr (Or.inr ⟨hh, hq, g1, g2, by rw [← h1]⟩)))
                  · exact absurd h (by simp)
                · exact absurd h (by simp)

/-- Claim C5 (amended): the normalization examples hold and every non-rejected
output has the `digits ':' two-digits` shape with an at-least-two-character
zero-padded hour; moreover every output produced while the am/pm pattern does
not match anywhere in the input is a valid 24-hour `HH:MM` reading.  The
original claim's range guarantee fails only on the am/pm branch, which can
emit hours above 23 (e.g. `"13pm"` → `"25:00"`) and minutes above 59
(e.g. `"1:99pm"` → `"13:99"`). -/
theorem claim_C5_time_normalization :
    formatWeddingTimeForSupabase (.str "5:30pm") = some "17:30" ∧
    formatWeddingTimeForSupabase (.str "noon") = some "12:00" ∧
    formatWeddingTimeForSupabase (.str "14:00") = some "14:00" ∧
    formatWeddingTimeForSupabase (.str "half past") = none ∧
    (∀ v t, formatWeddingTimeForSupabase v = some t → hhmmShape t.data = true) ∧
    (∀ s t, ampmScan (jsToLower (jsTrim s)).data = none →
      formatWeddingTimeForSupabase (.str s) = some t → isValidHHMM t.data = true) := by
  refine ⟨by decide, by decide, by decide, by decide, ?_, ?_⟩
  · intro v t h
    have hstr : ∃ s, v = .str s := by
      cases v with
      | str s => exact ⟨s, rfl⟩
      | bool b =>
        cases b <;> exact absurd h (by simp [formatWeddingTimeForSupabase, jsTruthy])
      | _ => exact absurd h (by simp [formatWeddingTimeForSupabase, jsTruthy])
    obtain ⟨s, rfl⟩ := hstr
    rcases formatTime_branches s t h with (rfl | rfl) | ⟨hr, m, hq, rfl⟩ |
        ⟨hh, mm, pm, hq, rfl⟩ | ⟨hr, m, hq, rfl⟩ | ⟨hh, hq, hg1, hg2, rfl⟩
    · decide
    · decide
    · obtain ⟨a, b, c, d, rfl, rfl, hab, hcd⟩ := matchDirect_cases hq
      show hhmmShape ([a, b] ++ ':' :: [c, d]) = true
      obtain ⟨ha, hb⟩ := hourPairOk_digits hab
      obtain ⟨hc, hd⟩ := minutePairOk_digits hcd
      exact hhmmShape_of_parts [a, b] [c, d] (by simp [ha, hb]) (by simp) (by simp [hc, hd]) rfl
    · obtain ⟨hb1, hb2⟩ := ampmScan_bounds hq
      show hhmmShape (renderNat2 (ampmAdjust hh pm) ++ ':' :: renderNat2 mm) = true
      exact hhmmShape_of_parts _ _ (renderNat2_digits _) (renderNat2_len_ge2 _)
        (renderNat2_digits _) (renderNat2_len_two _ hb2)
    · obtain ⟨⟨a, b, hp2, hab⟩, ⟨c, d, rfl, hcd⟩⟩ := emb24Scan_cases hq
      show hhmmShape (pad2 hr ++ ':' :: [c, d]) = true
      rw [hp2]
      obtain ⟨ha, hb⟩ := hourPairOk_digits hab
      obtain ⟨hc, hd⟩ := minutePairOk_digits hcd
      exact hhmmShape_of_parts [a, b] [c, d] (by simp [ha, hb]) (by simp) (by simp [hc, hd]) rfl
    · show hhmmShape (renderNat2 hh ++ [':', '0', '0']) = true
      interval_cases hh <;> decide
  · intro s t hampm h
    rcases formatTime_branches s t h with (rfl | rfl) | ⟨hr, m, hq, rfl⟩ |
        ⟨hh, mm, pm, hq, rfl⟩ | ⟨hr, m, hq, rfl⟩ | ⟨hh, hq, hg1, hg2, rfl⟩
    · decide
    · decide
    · obtain ⟨a, b, c, d, rfl, rfl, hab, hcd⟩ := matchDirect_cases hq
      show isValidHHMM ([a, b] ++ ':' :: [c, d]) = true
      simp [isValidHHMM, hab, hcd]
    · rw [hampm] at hq
      exact absurd hq (by simp)
    · obtain ⟨⟨a, b, hp2, hab⟩, ⟨c, d, rfl, hcd⟩⟩ := emb24Scan_cases hq
      show isValidHHMM (pad2 hr ++ ':' :: [c, d]) = true
      rw [hp2]
      simp [isValidHHMM, hab, hcd]
    · show isValidHHMM (renderNat2 hh ++ [':', '0', '0']) = true
      interval_cases hh <;> decide

/-- Witness for C5's quantified parts: the shape property at the am/pm output
`"25:00"` and the validity property at `"14:00"` (no am/pm match). -/
theorem claim_C5_witness :
    hhmmShape "25:00".data = true ∧ isValidHHMM "14:00".data = true := by
  constructor
  · exact claim_C5_time_normalization.2.2.2.2.1 (.str "13pm") "25:00" (by decide)
  · exact claim_C5_time_normalization.2.2.2.2.2 "14:00" "14:00" (by decide) (by decide)

/-- Counterexample for C5 as stated: `"13pm"` is accepted and produces
`"25:00"`, whose hour exceeds 23, and `"1:99pm"` produces `"13:99"`, whose
minutes exceed 59 — neither is a valid 24-hour `HH:MM` reading. -/
theorem claim_C5_counterexample :
    formatWeddingTimeForSupabase (.str "13pm") = some "25:00" ∧
    isValidHHMM "25:00".data = false ∧
    formatWeddingTimeForSupabase (.str "1:99pm") = some "13:99" ∧
    isValidHHMM "13:99".data = false := by
  refine ⟨by decide, by decide, by decide, by decide⟩

/-! ## Claims C6, C8, C10: vendor sanitizer characterization

Specification-side notions: the *candidates* of a pass are the items that
survive the object/name/type gates, in order, with their identity keys; "keep
the first occurrence per key" is the generic `firstCands` filter, and the
dropped later duplicates are `dupCands`. -/

structure VCand where
  key : String
  vname : String
  vtype : String
  item : JsVal

/-- The vendor items passing the object/name/type gates, with identity keys
(no deduplication); throws exactly where the sanitizer's gate code throws. -/
def vendorCandidates : List JsVal → Except JsErr (List VCand)
  | [] => .ok []
  | vendor :: rest =>
    if !jsTruthy vendor || jsTypeof vendor != "object" then vendorCandidates rest
    else
      match canonicalizeVendorType (jsGetField vendor "vendor_type") with
      | .error e => .error e
      | .ok tyOpt =>
        match toTrimmedString (jsGetField vendor "vendor_name") with
        | none => vendorCandidates rest
        | some vendorName =>
          match tyOpt with
          | none => vendorCandidates rest
          | some vendorType =>
            match vendorCandidates rest with
            | .error e => .error e
            | .ok cs =>
              .ok ({ key := vendorKey vendorType vendorName, vname := vendorName,
                     vtype := vendorType, item := vendor } :: cs)

/-- First occurrence per identity key (the spec's dedup policy). -/
def firstCands (seen : List String) : List VCand → List VCand
  | [] => []
  | c :: rest =>
    if seen.contains c.key then firstCands seen rest
    else c :: firstCands (c.key :: seen) rest

/-- The later duplicates dropped by the dedup policy. -/
def dupCands (seen : List String) : List VCand → List VCand
  | [] => []
  | c :: rest =>
    if seen.contains c.key then c :: dupCands seen rest
    else dupCands (c.key :: seen) rest

/-- Building the vendor record of every kept candidate, in order. -/
def buildVendorsSeq : List VCand → Except JsErr (List (VendorRec × List String))
  | [] => .ok []
  | c :: rest =>
    match buildVendor c.item c.vname c.vtype with
    | .error e => .error e
    | .ok rw =>
      match buildVendorsSeq rest with
      | .error e => .error e
      | .ok rws => .ok (rw :: rws)

theorem buildVendor_fields {v : JsVal} {n ty : String} {r : VendorRec} {w : List String}
    (h : buildVendor v n ty = .ok (r, w)) : r.vendor_type = ty ∧ r.vendor_name = n := by
  unfold buildVendor at h
  split at h
  · exact absurd h (by simp)
  · simp only [] at h
    injection h with h1
    injection h1 with h2 h3
    subst h2
    exact ⟨rfl, rfl⟩

/-- The deposit clamp of `buildVendor`: the emitted record never has a deposit
above the total cost, and a clamped raw deposit leaves a warning. -/
theorem buildVendor_clamp {v : JsVal} {n ty : String} {r : VendorRec} {w : List String}
    (h : buildVendor v n ty = .ok (r, w)) :
    (∀ t d, r.total_cost = some t → r.deposit_amount = some d → d ≤ t) ∧
    (∀ t d0, normalizeCurrency (jsGetField v "total_cost") = some t →
      normalizeCurrency (jsGetField v "deposit_amount") = some d0 → t < d0 →
      clampWarn n ∈ w) := by
  unfold buildVendor at h
  split at h
  · exact absurd h (by simp)
  · simp only [] at h
    injection h with h1
    injection h1 with h2 h3
    subst h2; subst h3
    constructor
    · intro t d ht hd
      simp only at ht hd
      rcases hc : normalizeCurrency (jsGetField v "total_cost") with _ | tc <;> rw [hc] at ht hd
      · exact absurd ht (by simp)
      · rcases hdep : normalizeCurrency (jsGetField v "deposit_amount") with _ | dep <;>
          rw [hdep] at hd
        · simp at hd
        · by_cases hlt : tc < dep
          · rw [if_pos (by simp [hlt])] at hd
            injection ht with ht1; injection hd with hd1
            omega
          · rw [if_neg (by simp [hlt])] at hd
            injection ht with ht1; injection hd with hd1
            omega
    · intro t d0 ht hd0 hlt
      simp only [ht, hd0, List.mem_append]
      left
      rw [if_pos (by simp [hlt])]
      simp

theorem sanitizeVendorsAux_spec (items : List JsVal) :
    ∀ i seen recs ws recs' ws',
    sanitizeVendorsAux items i seen recs ws = .ok (recs', ws') →
    ∃ cands rws, vendorCandidates items = .ok cands ∧
      buildVendorsSeq (firstCands seen cands) = .ok rws ∧
      recs' = recs ++ rws.map Prod.fst ∧
      (∀ w ∈ ws, w ∈ ws') ∧
      (∀ rw ∈ rws, ∀ w ∈ rw.2, w ∈ ws') ∧
      (∀ c ∈ dupCands seen cands, vendorDupWarn c.vname c.vtype ∈ ws') := by
  induction items with
  | nil =>
    intro i seen recs ws recs' ws' hs
    unfold sanitizeVendorsAux at hs
    injection hs with h1
    injection h1 with h2 h3
    subst h2; subst h3
    exact ⟨[], [], rfl, rfl, by simp, fun w hw => hw, by simp, by simp [dupCands]⟩
  | cons vendor rest ih =>
    intro i seen recs ws recs' ws' hs
    unfold sanitizeVendorsAux at hs
    split at hs
    · -- not an object
      rename_i hobj
      obtain ⟨cands, rws, hc, hb, hr, hw, hbw, hd⟩ := ih _ _ _ _ _ _ hs
      refine ⟨cands, rws, ?_, hb, hr, ?_, hbw, hd⟩
      · unfold vendorCandidates
        rw [if_pos hobj]
        exact hc
      · intro w hw2
        exact hw w (by simp [hw2])
    · rename_i hobj
      split at hs
      · exact absurd hs (by simp)
      · rename_i tyOpt hty
        split at hs
        · -- missing name
          rename_i hname
          obtain ⟨cands, rws, hc, hb, hr, hw, hbw, hd⟩ := ih _ _ _ _ _ _ hs
          refine ⟨cands, rws, ?_, hb, hr, ?_, hbw, hd⟩
          · unfold vendorCandidates
            rw [if_neg hobj, hty, hname]
            exact hc
          · intro w hw2
            exact hw w (by simp [hw2])
        · rename_i vendorName hname
          split at hs
          · -- unsupported type
            obtain ⟨cands, rws, hc, hb, hr, hw, hbw, hd⟩ := ih _ _ _ _ _ _ hs
            refine ⟨cands, rws, ?_, hb, hr, ?_, hbw, hd⟩
            · unfold vendorCandidates
              rw [if_neg hobj, hty, hname]
              exact hc
            · intro w hw2
              exact hw w (by simp [hw2])
          · rename_i vendorType
            split at hs
            · -- duplicate key
              rename_i hdup
              obtain ⟨cands, rws, hc, hb, hr, hw, hbw, hd⟩ := ih _ _ _ _ _ _ hs
              refine ⟨{ key := vendorKey vendorType vendorName, vname := vendorName,
                        vtype := vendorType, item := vendor } :: cands, rws, ?_, ?_, hr, ?_, hbw, ?_⟩
              · unfold vendorCandidates
                rw [if_neg hobj, hty, hname, hc]
              · unfold firstCands
                rw [if_pos hdup]
                exact hb
              · intro w hw2
                exact hw w (by simp [hw2])
              · intro c hcm
                unfold dupCands at hcm
                rw [if_pos hdup] at hcm
                rcases List.mem_cons.mp hcm with rfl | hcm2
                · exact hw _ (by simp)
                · exact hd c hcm2
            · -- fresh key: build and keep
              rename_i hdup
              split at hs
              · exact absurd hs (by simp)
              · rename_i r0 bws0 hbuild
                obtain ⟨cands, rws, hc, hb, hr, hw, hbw, hd⟩ := ih _ _ _ _ _ _ hs
                refine ⟨{ key := vendorKey vendorType vendorName, vname := vendorName,
                          vtype := vendorType, item := vendor } :: cands, (r0, bws0) :: rws,
                        ?_, ?_, ?_, ?_, ?_, ?_⟩
                · unfold vendorCandidates
                  rw [if_neg hobj, hty, hname, hc]
                · unfold firstCands
                  rw [if_neg hdup]
                  show buildVendorsSeq (_ :: _) = _
                  unfold buildVendorsSeq
                  rw [hbuild, hb]
                · rw [hr]
                  simp
                · intro w hw2
                  exact hw w (by simp [hw2])
                · intro rw1 hrw1 w hw2
                  rcases List.mem_cons.mp hrw1 with rfl | hrw2
                  · exact hw w (by simp [hw2])
                  · exact hbw rw1 hrw2 w hw2
                · intro c hcm
                  unfold dupCands at hcm
                  rw [if_neg hdup] at hcm
                  exact hd c hcm

theorem firstCands_keys (seen : List String) (cs : List VCand) :
    ((firstCands seen cs).map VCand.key).Nodup ∧
    (∀ k ∈ (firstCands seen cs).map VCand.key, seen.contains k = false) := by
  induction cs generalizing seen with
  | nil => simp [firstCands]
  | cons c rest ih =>
    unfold firstCands
    by_cases hc : seen.contains c.key
    · rw [if_pos hc]
      exact ih seen
    · rw [if_neg hc]
      obtain ⟨ihn, ihs⟩ := ih (c.key :: seen)
      refine ⟨?_, ?_⟩
      · simp only [List.map_cons, List.nodup_cons]
        refine ⟨?_, ihn⟩
        intro hmem
        have := ihs c.key hmem
        simp at this
      · intro k hk
        simp only [List.map_cons, List.mem_cons] at hk
        rcases hk with rfl | hk2
        · simpa using hc
        · have := ihs k hk2
          simp only [List.contains_cons, Bool.or_eq_false_iff] at this
          exact this.2

theorem buildVendorsSeq_forall2 {cs : List VCand} {rws : List (VendorRec × List String)}
    (h : buildVendorsSeq cs = .ok rws) :
    List.Forall₂ (fun c rw => buildVendor c.item c.vname c.vtype = .ok rw) cs rws := by
  induction cs generalizing rws with
  | nil =>
    unfold buildVendorsSeq at h
    injection h with h1
    subst h1
    exact List.Forall₂.nil
  | cons c rest ih =>
    unfold buildVendorsSeq at h
    split at h
    · exact absurd h (by simp)
    · rename_i rw0 hb
      split at h
      · exact absurd h (by simp)
      · rename_i rws0 hrest
        injection h with h1
        subst h1
        exact List.Forall₂.cons hb (ih hrest)

theorem forall2_mem_right {α β : Type} {R : α → β → Prop} {as : List α} {bs : List β}
    (h : List.Forall₂ R as bs) {b : β} (hb : b ∈ bs) : ∃ a ∈ as, R a b := by
  induction h with
  | nil => simp at hb
  | cons hr _ ih =>
    rcases List.mem_cons.mp hb with rfl | hb2
    · exact ⟨_, by simp, hr⟩
    · obtain ⟨a, ha, har⟩ := ih hb2
      exact ⟨a, by simp [ha], har⟩

theorem forall2_map_eq {α β : Type} {R : α → β → Prop} {as : List α} {bs : List β}
    (h : List.Forall₂ R as bs) {γ : Type} (f : β → γ) (g : α → γ)
    (hfg : ∀ a b, a ∈ as → R a b → f b = g a) : bs.map f = as.map g := by
  induction h with
  | nil => rfl
  | cons hr htl ih =>
    simp only [List.map_cons]
    rw [hfg _ _ (by simp) hr, ih (fun a b ha hab => hfg a b (by simp [ha]) hab)]

theorem vendorCandidates_key_inv {vs : List JsVal} {cands : List VCand}
    (h : vendorCandidates vs = .ok cands) :
    ∀ c ∈ cands, c.key = vendorKey c.vtype c.vname := by
  induction vs generalizing cands with
  | nil =>
    unfold vendorCandidates at h
    injection h with h1
    subst h1
    simp
  | cons vendor rest ih =>
    unfold vendorCandidates at h
    split at h
    · exact ih h
    · split at h
      · exact absurd h (by simp)
      · split at h
        · exact ih h
        · split at h
          · exact ih h
          · split at h
            · exact absurd h (by simp)
            · rename_i cs hrest
              injection h with h1
              subst h1
              intro c hc
              rcases List.mem_cons.mp hc with rfl | hc2
              · rfl
              · exact ih hrest c hc2

theorem firstCands_subset {seen : List String} {cs : List VCand} {c : VCand}
    (h : c ∈ firstCands seen cs) : c ∈ cs := by
  induction cs generalizing seen with
  | nil => simpa [firstCands] using h
  | cons c0 rest ih =>
    unfold firstCands at h
    split at h
    · exact List.mem_cons_of_mem _ (ih h)
    · rcases List.mem_cons.mp h with rfl | h2
      · simp
      · exact List.mem_cons_of_mem _ (ih h2)

/-- Claim C6: in one pass, the sanitized vendor list consists of exactly the
records built from the first candidate per identity key
`(canonical type, lowercased trimmed name)`, in order; the identity key is
therefore unique across the output, and every later duplicate candidate is
dropped with its duplicate warning recorded. -/
theorem claim_C6_vendor_dedup (vs : List JsVal) (recs : List VendorRec) (ws : List String)
    (hs : sanitizeVendors (.arr vs) = .ok (recs, ws)) :
    ∃ cands rws, vendorCandidates vs = .ok cands ∧
      buildVendorsSeq (firstCands [] cands) = .ok rws ∧
      recs = rws.map Prod.fst ∧
      recs.map (fun r => vendorKey r.vendor_type r.vendor_name) =
        (firstCands [] cands).map VCand.key ∧
      (recs.map (fun r => vendorKey r.vendor_type r.vendor_name)).Nodup ∧
      (∀ c ∈ dupCands [] cands, vendorDupWarn c.vname c.vtype ∈ ws) := by
  have hs2 : (if vs.isEmpty then (.ok ([], []) : Except JsErr (List VendorRec × List String))
      else sanitizeVendorsAux vs 0 [] [] []) = .ok (recs, ws) := hs
  split at hs2
  · -- empty array
    rename_i hempty
    injection hs2 with h1
    injection h1 with h2 h3
    subst h2; subst h3
    have : vs = [] := by simpa using hempty
    subst this
    exact ⟨[], [], rfl, rfl, rfl, rfl, by simp, by simp [dupCands]⟩
  · obtain ⟨cands, rws, hc, hb, hr, _, _, hd⟩ :=
      sanitizeVendorsAux_spec vs 0 [] [] [] recs ws hs2
    have hkeyinv := vendorCandidates_key_inv hc
    have hkeys : recs.map (fun r => vendorKey r.vendor_type r.vendor_name) =
        (firstCands [] cands).map VCand.key := by
      rw [hr]
      simp only [List.nil_append]
      rw [List.map_map]
      refine forall2_map_eq (buildVendorsSeq_forall2 hb) _ _ ?_
      intro c rw hcm hrel
      obtain ⟨hty, hn⟩ := buildVendor_fields hrel
      show vendorKey rw.1.vendor_type rw.1.vendor_name = c.key
      rw [hty, hn, hkeyinv c (firstCands_subset hcm)]
    refine ⟨cands, rws, hc, hb, by simpa using hr, hkeys, ?_, hd⟩
    rw [hkeys]
    exact (firstCands_keys [] cands).1

theorem forall2_mem_left {α β : Type} {R : α → β → Prop} {as : List α} {bs : List β}
    (h : List.Forall₂ R as bs) {a : α} (ha : a ∈ as) : ∃ b ∈ bs, R a b := by
  induction h with
  | nil => simp at ha
  | cons hr _ ih =>
    rcases List.mem_cons.mp ha with rfl | ha2
    · exact ⟨_, by simp, hr⟩
    · obtain ⟨b, hb, hbr⟩ := ih ha2
      exact ⟨b, by simp [hb], hbr⟩

/-- Claim C8: in every vendor record emitted in one pass, a known deposit
never exceeds a known total cost; and whenever a kept candidate's raw deposit
normalizes above its normalized total cost, the adjustment warning for that
vendor is recorded. -/
theorem claim_C8_deposit_clamp (vs : List JsVal) (recs : List VendorRec) (ws : List String)
    (hs : sanitizeVendors (.arr vs) = .ok (recs, ws)) :
    (∀ r ∈ recs, ∀ t d, r.total_cost = some t → r.deposit_amount = some d → d ≤ t) ∧
    (∀ cands, vendorCandidates vs = .ok cands →
      ∀ c ∈ firstCands [] cands, ∀ t d0,
        normalizeCurrency (jsGetField c.item "total_cost") = some t →
        normalizeCurrency (jsGetField c.item "deposit_amount") = some d0 →
        t < d0 → clampWarn c.vname ∈ ws) := by
  have hs2 : (if vs.isEmpty then (.ok ([], []) : Except JsErr (List VendorRec × List String))
      else sanitizeVendorsAux vs 0 [] [] []) = .ok (recs, ws) := hs
  split at hs2
  · rename_i hempty
    injection hs2 with h1
    injection h1 with h2 h3
    subst h2; subst h3
    have : vs = [] := by simpa using hempty
    subst this
    refine ⟨by simp, ?_⟩
    intro cands hc
    have : cands = [] := by
      have : (Except.ok [] : Except JsErr (List VCand)) = .ok cands := hc
      injection this with h1
      exact h1.symm
    subst this
    simp [firstCands]
  · obtain ⟨cands, rws, hc, hb, hr, _, hbw, _⟩ :=
      sanitizeVendorsAux_spec vs 0 [] [] [] recs ws hs2
    have hf2 := buildVendorsSeq_forall2 hb
    constructor
    · intro r hrm t d ht hd
      rw [hr] at hrm
      simp only [List.nil_append, List.mem_map] at hrm
      obtain ⟨rw0, hrw0, hfst⟩ := hrm
      obtain ⟨c, _, hrel⟩ := forall2_mem_right hf2 hrw0
      subst hfst
      exact (buildVendor_clamp hrel).1 t d ht hd
    · intro cands' hc' c hcm t d0 ht hd0 hlt
      have hceq : cands' = cands := by
        rw [hc] at hc'
        injection hc' with h1
        exact h1.symm
      subst hceq
      obtain ⟨rw0, hrw0, hrel⟩ := forall2_mem_left hf2 hcm
      have hwmem := (buildVendor_clamp hrel).2 t d0 ht hd0 hlt
      exact hbw rw0 hrw0 _ hwmem

/-- The concrete clamped-vendor example: total cost 100, raw deposit 150. -/
def c8DemoVendor : JsVal :=
  .obj [("vendor_type", .str "florist"), ("vendor_name", .str "Rosa"),
        ("total_cost", .num 100), ("deposit_amount", .num 150)]

/-- Witness for C8: the clamp warning recorded for the demo vendor is in the
output warning list. -/
theorem claim_C8_witness :
    clampWarn "Rosa" ∈ ["Adjusted deposit for vendor \"Rosa\" to not exceed total_cost."] := by
  have h := claim_C8_deposit_clamp [c8DemoVendor]
    [{ vendor_type := "florist", vendor_name := "Rosa",
       vendor_contact_name := none, vendor_email := none, vendor_phone := none,
       total_cost := some 100, deposit_amount := some 100, deposit_paid := none,
       deposit_date := none, balance_due := none, final_payment_date := none,
       final_payment_paid := none, status := none, contract_signed := none,
       contract_date := none, service_date := none, notes := none }]
    ["Adjusted deposit for vendor \"Rosa\" to not exceed total_cost."] (by decide)
  refine h.2 [{ key := vendorKey "florist" "Rosa", vname := "Rosa", vtype := "florist",
                item := c8DemoVendor }] rfl _ (List.Mem.head _) 100 150
    (by decide) (by decide) (by decide)

/-- Claim C10: identity alone is sufficient — a vendor item carrying only a
usable name and type (every other field absent) is emitted as a record with
all optional fields null and no warnings; and in any pass every kept
first-occurrence candidate yields exactly one output record (no
"no actionable data" rejection exists in this module). -/
theorem claim_C10_identity_sufficient :
    (∀ nv tv n t, toTrimmedString nv = some n → canonicalizeVendorType tv = .ok (some t) →
      sanitizeVendors (.arr [.obj [("vendor_name", nv), ("vendor_type", tv)]]) =
        .ok ([{ vendor_type := t, vendor_name := n,
                vendor_contact_name := none, vendor_email := none, vendor_phone := none,
                total_cost := none, deposit_amount := none, deposit_paid := none,
                deposit_date := none, balance_due := none, final_payment_date := none,
                final_payment_paid := none, status := none, contract_signed := none,
                contract_date := none, service_date := none, notes := none }], [])) ∧
    (∀ vs recs ws cands, sanitizeVendors (.arr vs) = .ok (recs, ws) →
      vendorCandidates vs = .ok cands → recs.length = (firstCands [] cands).length) := by
  constructor
  · intro nv tv n t hn ht
    have e1 : jsGetField (.obj [("vendor_name", nv), ("vendor_type", tv)]) "vendor_name" = nv := rfl
    have e2 : jsGetField (.obj [("vendor_name", nv), ("vendor_type", tv)]) "vendor_type" = tv := rfl
    show sanitizeVendorsAux [.obj [("vendor_name", nv), ("vendor_type", tv)]] 0 [] [] [] = _
    unfold sanitizeVendorsAux
    rw [if_neg (by simp [jsTruthy, jsTypeof]), e1, e2, hn, ht]
    rfl
  · intro vs recs ws cands hs hc
    have hs2 : (if vs.isEmpty then (.ok ([], []) : Except JsErr (List VendorRec × List String))
        else sanitizeVendorsAux vs 0 [] [] []) = .ok (recs, ws) := hs
    split at hs2
    · rename_i hempty
      injection hs2 with h1
      injection h1 with h2 h3
      subst h2; subst h3
      have hv : vs = [] := by simpa using hempty
      subst hv
      have hce : cands = [] := by
        have h0 : (Except.ok [] : Except JsErr (List VCand)) = .ok cands := hc
        injection h0 with h1
        exact h1.symm
      subst hce
      rfl
    · obtain ⟨cands2, rws, hc2, hb, hr, _, _, _⟩ :=
        sanitizeVendorsAux_spec vs 0 [] [] [] recs ws hs2
      have hceq : cands = cands2 := by
        rw [hc2] at hc
        injection hc with h1
        exact h1.symm
      subst hceq
      rw [hr]
      simp only [List.nil_append, List.length_map]
      exact ((buildVendorsSeq_forall2 hb).length_eq).symm

/-- Witness for C10 at a concrete minimal vendor. -/
theorem claim_C10_witness :
    sanitizeVendors (.arr [.obj [("vendor_name", .str "Rosa"), ("vendor_type", .str "Florist")]]) =
      .ok ([{ vendor_type := "florist", vendor_name := "Rosa",
              vendor_contact_name := none, vendor_email := none, vendor_phone := none,
              total_cost := none, deposit_amount := none, deposit_paid := none,
              deposit_date := none, balance_due := none, final_payment_date := none,
              final_payment_paid := none, status := none, contract_signed := none,
              contract_date := none, service_date := none, notes := none }], []) :=
  claim_C10_identity_sufficient.1 (.str "Rosa") (.str "Florist") "Rosa" "florist"
    (by decide) (by decide)

/-- Two vendor items with the same canonical type and case-insensitively equal
names. -/
def c6DemoVendors : List JsVal :=
  [.obj [("vendor_type", .str "photo"), ("vendor_name", .str "Lens & Co")],
   .obj [("vendor_type", .str "photography"), ("vendor_name", .str "LENS & CO ")]]

/-- Witness for C6 at the concrete duplicate pair: only the first of the two
case-insensitively equal vendors survives, and the output keys are unique. -/
theorem claim_C6_witness :
    (["photographer:lens & co"] : List String).Nodup := by
  obtain ⟨cands, rws, hc, hb, hr, hk, hn, hd⟩ := claim_C6_vendor_dedup c6DemoVendors
    [{ vendor_type := "photographer", vendor_name := "Lens & Co",
       vendor_contact_name := none, vendor_email := none, vendor_phone := none,
       total_cost := none, deposit_amount := none, deposit_paid := none,
       deposit_date := none, balance_due := none, final_payment_date := none,
       final_payment_paid := none, status := none, contract_signed := none,
       contract_date := none, service_date := none, notes := none }]
    ["Skipped vendor \"LENS & CO\" (photographer): duplicate entry."] (by decide)
  have he : List.map (fun r => vendorKey r.vendor_type r.vendor_name)
      [({ vendor_type := "photographer", vendor_name := "Lens & Co",
          vendor_contact_name := none, vendor_email := none, vendor_phone := none,
          total_cost := none, deposit_amount := none, deposit_paid := none,
          deposit_date := none, balance_due := none, final_payment_date := none,
          final_payment_paid := none, status := none, contract_signed := none,
          contract_date := none, service_date := none, notes := none } : VendorRec)] =
      ["photographer:lens & co"] := by decide
  rw [he] at hn
  exact hn

/-! ## Claim C7: task sanitizer characterization -/

structure TCand where
  slug : String
  rcd : TaskRec
  tws : List String

/-- The tasks passing the object/name gates with their built records and
identity slugs, in order, no deduplication.  Unlike vendors, the record (and
its per-field warnings) is built before the duplicate check, so it is built
for later duplicates too. -/
def taskCandidates : List JsVal → Except JsErr (List TCand)
  | [] => .ok []
  | task :: rest =>
    if !jsTruthy task || jsTypeof task != "object" then taskCandidates rest
    else
      match toTrimmedString (jsGetField task "task_name") with
      | none => taskCandidates rest
      | some name =>
        match buildTask task name with
        | .error e => .error e
        | .ok (r, bws) =>
          match taskCandidates rest with
          | .error e => .error e
          | .ok cs =>
            .ok ({ slug := taskDeterministicId name r.due_date, rcd := r, tws := bws } :: cs)

/-- First occurrence per identity slug. -/
def firstTasks (seen : List String) : List TCand → List TCand
  | [] => []
  | c :: rest =>
    if seen.contains c.slug then firstTasks seen rest
    else c :: firstTasks (c.slug :: seen) rest

/-- The later duplicates dropped by the dedup policy. -/
def dupTasks (seen : List String) : List TCand → List TCand
  | [] => []
  | c :: rest =>
    if seen.contains c.slug then c :: dupTasks seen rest
    else dupTasks (c.slug :: seen) rest

theorem buildTask_name {t : JsVal} {name : String} {r : TaskRec} {w : List String}
    (h : buildTask t name = .ok (r, w)) : r.task_name = name := by
  unfold buildTask at h
  cases hcat : canonicalizeTaskCategory (jsGetField t "category") with
  | error e => rw [hcat] at h; exact absurd h (by simp)
  | ok cat =>
    rw [hcat] at h
    cases hst : jsOptTrimLower (jsGetField t "status") with
    | error e => rw [hst] at h; exact absurd h (by simp)
    | ok straw =>
      rw [hst] at h
      cases hpr : jsOptTrimLower (jsGetField t "priority") with
      | error e => rw [hpr] at h; exact absurd h (by simp)
      | ok praw =>
        rw [hpr] at h
        injection h with h1
        injection h1 with h2 h3
        subst h2
        rfl

theorem taskCandidates_slug_inv {ts : List JsVal} {cands : List TCand}
    (h : taskCandidates ts = .ok cands) :
    ∀ c ∈ cands, c.slug = taskDeterministicId c.rcd.task_name c.rcd.due_date := by
  induction ts generalizing cands with
  | nil =>
    unfold taskCandidates at h
    injection h with h1
    subst h1
    simp
  | cons task rest ih =>
    unfold taskCandidates at h
    split at h
    · exact ih h
    · split at h
      · exact ih h
      · rename_i name hname
        split at h
        · exact absurd h (by simp)
        · rename_i r bws hbuild
          split at h
          · exact absurd h (by simp)
          · rename_i cs hrest
            injection h with h1
            subst h1
            intro c hc
            rcases List.mem_cons.mp hc with rfl | hc2
            · show taskDeterministicId name r.due_date = _
              rw [buildTask_name hbuild]
            · exact ih hrest c hc2

theorem firstTasks_keys (seen : List String) (cs : List TCand) :
    ((firstTasks seen cs).map TCand.slug).Nodup ∧
    (∀ k ∈ (firstTasks seen cs).map TCand.slug, seen.contains k = false) := by
  induction cs generalizing seen with
  | nil => simp [firstTasks]
  | cons c rest ih =>
    unfold firstTasks
    by_cases hc : seen.contains c.slug
    · rw [if_pos hc]
      exact ih seen
    · rw [if_neg hc]
      obtain ⟨ihn, ihs⟩ := ih (c.slug :: seen)
      refine ⟨?_, ?_⟩
      · simp only [List.map_cons, List.nodup_cons]
        refine ⟨?_, ihn⟩
        intro hmem
        have := ihs c.slug hmem
        simp at this
      · intro k hk
        simp only [List.map_cons, List.mem_cons] at hk
        rcases hk with rfl | hk2
        · simpa using hc
        · have := ihs k hk2
          simp only [List.contains_cons, Bool.or_eq_false_iff] at this
          exact this.2

theorem firstTasks_subset {seen : List String} {cs : List TCand} {c : TCand}
    (h : c ∈ firstTasks seen cs) : c ∈ cs := by
  induction cs generalizing seen with
  | nil => simpa [firstTasks] using h
  | cons c0 rest ih =>
    unfold firstTasks at h
    split at h
    · exact List.mem_cons_of_mem _ (ih h)
    · rcases List.mem_cons.mp h with rfl | h2
      · simp
      · exact List.mem_cons_of_mem _ (ih h2)

theorem sanitizeTasksAux_spec (items : List JsVal) :
    ∀ i seen recs ws recs' ws',
    sanitizeTasksAux items i seen recs ws = .ok (recs', ws') →
    ∃ cands, taskCandidates items = .ok cands ∧
      recs' = recs ++ (firstTasks seen cands).map TCand.rcd ∧
      (∀ w ∈ ws, w ∈ ws') ∧
      (∀ c ∈ dupTasks seen cands, taskDupWarn c.rcd.task_name c.rcd.due_date ∈ ws') := by
  induction items with
  | nil =>
    intro i seen recs ws recs' ws' hs
    unfold sanitizeTasksAux at hs
    injection hs with h1
    injection h1 with h2 h3
    subst h2; subst h3
    exact ⟨[], rfl, by simp [firstTasks], fun w hw => hw, by simp [dupTasks]⟩
  | cons task rest ih =>
    intro i seen recs ws recs' ws' hs
    unfold sanitizeTasksAux at hs
    split at hs
    · rename_i hobj
      obtain ⟨cands, hc, hr, hw, hd⟩ := ih _ _ _ _ _ _ hs
      refine ⟨cands, ?_, hr, ?_, hd⟩
      · unfold taskCandidates
        rw [if_pos hobj]
        exact hc
      · intro w hw2
        exact hw w (by simp [hw2])
    · rename_i hobj
      split at hs
      · rename_i hname
        obtain ⟨cands, hc, hr, hw, hd⟩ := ih _ _ _ _ _ _ hs
        refine ⟨cands, ?_, hr, ?_, hd⟩
        · unfold taskCandidates
          rw [if_neg hobj, hname]
          exact hc
        · intro w hw2
          exact hw w (by simp [hw2])
      · rename_i name hname
        split at hs
        · exact absurd hs (by simp)
        · rename_i r0 bws0 hbuild
          split at hs
          · -- duplicate slug
            rename_i hdup
            obtain ⟨cands, hc, hr, hw, hd⟩ := ih _ _ _ _ _ _ hs
            refine ⟨{ slug := taskDeterministicId name r0.due_date, rcd := r0,
                      tws := bws0 } :: cands, ?_, ?_, ?_, ?_⟩
            · unfold taskCandidates
              rw [if_neg hobj]
              simp only [hname, hbuild, hc]
            · rw [hr]
              simp only [firstTasks]
              rw [if_pos hdup]
            · intro w hw2
              exact hw w (by simp [hw2])
            · intro c hcm
              simp only [dupTasks] at hcm
              rw [if_pos hdup] at hcm
              rcases List.mem_cons.mp hcm with rfl | hcm2
              · have hn : r0.task_name = name := buildTask_name hbuild
                refine hw _ ?_
                simp only [List.mem_append, List.mem_singleton]
                right
                show taskDupWarn r0.task_name r0.due_date = taskDupWarn name r0.due_date
                rw [hn]
              · exact hd c hcm2
          · -- fresh slug: keep
            rename_i hdup
            obtain ⟨cands, hc, hr, hw, hd⟩ := ih _ _ _ _ _ _ hs
            refine ⟨{ slug := taskDeterministicId name r0.due_date, rcd := r0,
                      tws := bws0 } :: cands, ?_, ?_, ?_, ?_⟩
            · unfold taskCandidates
              rw [if_neg hobj]
              simp only [hname, hbuild, hc]
            · rw [hr]
              simp only [firstTasks]
              rw [if_neg hdup]
              simp
            · intro w hw2
              exact hw w (by simp [hw2])
            · intro c hcm
              simp only [dupTasks] at hcm
              rw [if_neg hdup] at hcm
              exact hd c hcm

/-- Claim C7: in one pass, the sanitized task list consists of exactly the
records of the first candidate per identity slug
`(lowercased name)::(validated due date or "none")`, in order — so two tasks
with the same lowercased name and the same validated due date (or both
without one) collapse to the first occurrence with a duplicate warning for
each later one, while equal names with different due dates have different
slugs and are kept separately. -/
theorem claim_C7_task_dedup (ts : List JsVal) (recs : List TaskRec) (ws : List String)
    (hs : sanitizeTasks (.arr ts) = .ok (recs, ws)) :
    ∃ cands, taskCandidates ts = .ok cands ∧
      recs = (firstTasks [] cands).map TCand.rcd ∧
      (∀ c ∈ cands, c.slug = taskDeterministicId c.rcd.task_name c.rcd.due_date) ∧
      (recs.map (fun r => taskDeterministicId r.task_name r.due_date)).Nodup ∧
      (∀ c ∈ dupTasks [] cands, taskDupWarn c.rcd.task_name c.rcd.due_date ∈ ws) := by
  have hs2 : (if ts.isEmpty then (.ok ([], []) : Except JsErr (List TaskRec × List String))
      else sanitizeTasksAux ts 0 [] [] []) = .ok (recs, ws) := hs
  split at hs2
  · rename_i hempty
    injection hs2 with h1
    injection h1 with h2 h3
    subst h2; subst h3
    have hv : ts = [] := by simpa using hempty
    subst hv
    exact ⟨[], rfl, rfl, by simp, by simp [firstTasks], by simp [dupTasks]⟩
  · obtain ⟨cands, hc, hr, _, hd⟩ := sanitizeTasksAux_spec ts 0 [] [] [] recs ws hs2
    have hinv := taskCandidates_slug_inv hc
    have hrecs : recs = (firstTasks [] cands).map TCand.rcd := by simpa using hr
    refine ⟨cands, hc, hrecs, hinv, ?_, hd⟩
    rw [hrecs, List.map_map]
    have hmapeq : (firstTasks [] cands).map
        ((fun r => taskDeterministicId r.task_name r.due_date) ∘ TCand.rcd) =
        (firstTasks [] cands).map TCand.slug := by
      apply List.map_congr_left
      intro c hcm
      have := hinv c (firstTasks_subset hcm)
      simp only [Function.comp_apply]
      exact this.symm
    rw [hmapeq]
    exact (firstTasks_keys [] cands).1

/-- The duplicate/distinct task triple used by the witness. -/
def c7DemoTasks : List JsVal :=
  [.obj [("task_name", .str "Send invites"), ("due_date", .str "2025-05-01")],
   .obj [("task_name", .str "send invites"), ("due_date", .str "2025-05-01")],
   .obj [("task_name", .str "Send invites"), ("due_date", .str "2025-06-01")]]

def c7Rec (n : String) (d : String) : TaskRec :=
  { task_name := n, task_description := none, category := none, due_date := some d,
    status := none, priority := none, notes := none }

/-- Witness for C7 at the concrete triple: the case-insensitive duplicate is
collapsed while the same-name different-date task is kept, so the output
slugs are these two distinct keys. -/
theorem claim_C7_witness :
    (["send invites::2025-05-01", "send invites::2025-06-01"] : List String).Nodup := by
  obtain ⟨cands, hc, hr, hinv, hn, hd⟩ := claim_C7_task_dedup c7DemoTasks
    [c7Rec "Send invites" "2025-05-01", c7Rec "Send invites" "2025-06-01"]
    ["Skipped duplicate task \"send invites\" with due date 2025-05-01."] (by decide)
  have he : List.map (fun r => taskDeterministicId r.task_name r.due_date)
      [c7Rec "Send invites" "2025-05-01", c7Rec "Send invites" "2025-06-01"] =
      ["send invites::2025-05-01", "send invites::2025-06-01"] := by decide
  rw [he] at hn
  exact hn

/-! ## Claim C3: budget merge characterization

Specification-side notions, following the spec's words: the *accepted* items
of a pass (object gate, resolved category, at least one monetary value), the
category list deduplicated to first occurrences, and for each category the
merged record whose `spent_amount` is the sum of the accepted spent amounts
and whose other fields are the last non-null value seen in input order. -/

/-- The budget items surviving the object/category/monetary gates, with their
normalized fields, in order. -/
def acceptedBudgetItems : List JsVal → Except JsErr (List BItem)
  | [] => .ok []
  | item :: rest =>
    if !jsTruthy item || jsTypeof item != "object" then acceptedBudgetItems rest
    else
      match canonicalizeBudgetCategory (jsGetField item "category") with
      | .error e => .error e
      | .ok none => acceptedBudgetItems rest
      | .ok (some category) =>
        let a := normalizeBudgetItem item category
        if a.budgeted.isNone && a.spent.isNone && a.tamount.isNone then
          acceptedBudgetItems rest
        else
          match acceptedBudgetItems rest with
          | .error e => .error e
          | .ok as => .ok (a :: as)

/-- First occurrence per element (the category order of the output). -/
def firstDedup (seen : List String) : List String → List String
  | [] => []
  | c :: rest =>
    if seen.contains c then firstDedup seen rest else c :: firstDedup (c :: seen) rest

/-- The accepted items whose category was already present when processed
(each one triggers a merged-duplicate warning). -/
def dupBItems (seen : List String) : List BItem → List BItem
  | [] => []
  | a :: rest =>
    if seen.contains a.category then a :: dupBItems seen rest
    else dupBItems (a.category :: seen) rest

/-- Additive accumulation of the non-null spent amounts (`none` if none). -/
def sumSpent : List BItem → Option Nat
  | [] => none
  | a :: rest =>
    match a.spent, sumSpent rest with
    | none, r => r
    | some x, none => some x
    | some x, some y => some (x + y)

/-- Last non-null value of a field, in input order. -/
def lastSome {α : Type} (f : BItem → Option α) : List BItem → Option α
  | [] => none
  | a :: rest =>
    match lastSome f rest with
    | some y => some y
    | none => f a

/-- The merged record of one category over its accepted items. -/
def mergedOf (c : String) (mine : List BItem) : BudgetRec :=
  { category := c,
    budgeted_amount := lastSome BItem.budgeted mine,
    spent_amount := sumSpent mine,
    transaction_date := lastSome BItem.tdate mine,
    transaction_amount := lastSome BItem.tamount mine,
    transaction_description := lastSome BItem.tdesc mine,
    notes := lastSome BItem.bnotes mine }

def mergedBudgetRec (c : String) (acc : List BItem) : BudgetRec :=
  mergedOf c (acc.filter (fun a => a.category == c))

/-- The spec-side aggregate: one entry per first-occurrence category. -/
def specAssoc (acc : List BItem) : List (String × BudgetRec) :=
  (firstDedup [] (acc.map BItem.category)).map (fun c => (c, mergedBudgetRec c acc))

/-- One step of the implementation's accumulator update. -/
def budgetStep (agg : List (String × BudgetRec)) (a : BItem) : List (String × BudgetRec) :=
  mapSetB a.category (mergeInto ((mapGetB a.category agg).getD (emptyBudgetRec a.category)) a) agg

theorem sumSpent_concat (l : List BItem) (a : BItem) :
    sumSpent (l ++ [a]) =
      match a.spent with
      | none => sumSpent l
      | some sp => some ((sumSpent l).getD 0 + sp) := by
  induction l with
  | nil =>
    show sumSpent [a] = _
    unfold sumSpent
    cases a.spent <;> simp [sumSpent]
  | cons b rest ih =>
    show sumSpent (b :: (rest ++ [a])) = _
    unfold sumSpent
    rw [ih]
    cases hb : b.spent <;> cases ha : a.spent <;> cases hr : sumSpent rest <;>
      simp [sumSpent, hb, ha, hr] <;> omega

theorem lastSome_concat {α : Type} (f : BItem → Option α) (l : List BItem) (a : BItem) :
    lastSome f (l ++ [a]) =
      match f a with
      | some y => some y
      | none => lastSome f l := by
  induction l with
  | nil =>
    show lastSome f [a] = _
    unfold lastSome
    cases f a <;> simp [lastSome]
  | cons b rest ih =>
    show lastSome f (b :: (rest ++ [a])) = _
    unfold lastSome
    rw [ih]
    cases ha : f a <;> cases hr : lastSome f rest <;> simp [lastSome, ha, hr]

theorem mergedOf_nil (c : String) : mergedOf c [] = emptyBudgetRec c := rfl

/-- Appending one item to a category's accepted list is exactly the
implementation's `mergeInto`. -/
theorem mergedOf_concat (c : String) (mine : List BItem) (a : BItem) :
    mergedOf c (mine ++ [a]) = mergeInto (mergedOf c mine) a := by
  unfold mergedOf mergeInto
  rw [sumSpent_concat, lastSome_concat, lastSome_concat, lastSome_concat, lastSome_concat,
    lastSome_concat]
  cases hb : a.budgeted <;> cases hsp : a.spent <;> cases ht : a.tamount <;>
    cases hd : a.tdate <;> cases hde : a.tdesc <;> cases hn : a.bnotes <;> simp

theorem mapGetB_map_pairs (cats : List String) (f : String → BudgetRec) (c : String) :
    mapGetB c (cats.map (fun c' => (c', f c'))) =
      if cats.contains c then some (f c) else none := by
  induction cats with
  | nil => simp [mapGetB]
  | cons c0 rest ih =>
    simp only [List.map_cons]
    unfold mapGetB
    by_cases h : c0 = c
    · subst h
      simp
    · rw [if_neg h, ih]
      have hne : c ≠ c0 := fun hh => h hh.symm
      by_cases hm : c ∈ rest
      · simp [hm]
      · simp [hm, hne]

theorem mapSetB_map_pairs_mem (cats : List String) (f : String → BudgetRec) (c : String)
    (r : BudgetRec) (hnd : cats.Nodup) (hmem : cats.contains c = true) :
    mapSetB c r (cats.map (fun c' => (c', f c'))) =
      cats.map (fun c' => (c', if c' = c then r else f c')) := by
  induction cats with
  | nil => simp at hmem
  | cons c0 rest ih =>
    simp only [List.map_cons]
    unfold mapSetB
    by_cases h : c0 = c
    · subst h
      rw [if_pos rfl]
      simp only [List.nodup_cons] at hnd
      have : rest.map (fun c' => (c', if c' = c0 then r else f c')) =
          rest.map (fun c' => (c', f c')) := by
        apply List.map_congr_left
        intro x hx
        have hne : x ≠ c0 := fun he => hnd.1 (he ▸ hx)
        simp [hne]
      simp [this]
    · rw [if_neg h]
      simp only [List.contains_cons, Bool.or_eq_true, beq_iff_eq] at hmem
      rcases hmem with hmem | hmem
      · exact absurd hmem.symm h
      · simp only [List.nodup_cons] at hnd
        rw [ih hnd.2 hmem]
        simp [h]

theorem mapSetB_map_pairs_notmem (cats : List String) (f : String → BudgetRec) (c : String)
    (r : BudgetRec) (hmem : cats.contains c = false) :
    mapSetB c r (cats.map (fun c' => (c', f c'))) =
      cats.map (fun c' => (c', f c')) ++ [(c, r)] := by
  induction cats with
  | nil => simp [mapSetB]
  | cons c0 rest ih =>
    simp only [List.contains_cons, Bool.or_eq_false_iff, beq_eq_false_iff_ne] at hmem
    simp only [List.map_cons]
    unfold mapSetB
    rw [if_neg (Ne.symm hmem.1), ih hmem.2]
    simp

theorem mem_firstDedup {seen : List String} {l : List String} {c : String} :
    c ∈ firstDedup seen l ↔ (seen.contains c = false ∧ c ∈ l) := by
  induction l generalizing seen with
  | nil => simp [firstDedup]
  | cons c0 rest ih =>
    unfold firstDedup
    by_cases h : seen.contains c0
    · rw [if_pos h]
      rw [ih]
      constructor
      · rintro ⟨h1, h2⟩
        exact ⟨h1, by simp [h2]⟩
      · rintro ⟨h1, h2⟩
        rcases List.mem_cons.mp h2 with rfl | h3
        · rw [h1] at h
          exact absurd h (by simp)
        · exact ⟨h1, h3⟩
    · rw [if_neg h]
      constructor
      · intro hm
        rcases List.mem_cons.mp hm with rfl | hm2
        · refine ⟨?_, by simp⟩
          simp only [Bool.not_eq_true] at h
          exact h
        · obtain ⟨h1, h2⟩ := ih.mp hm2
          simp only [List.contains_cons, Bool.or_eq_false_iff, beq_eq_false_iff_ne] at h1
          exact ⟨h1.2, by simp [h2]⟩
      · rintro ⟨h1, h2⟩
        rcases List.mem_cons.mp h2 with rfl | h3
        · simp
        · by_cases hcc : c = c0
          · subst hcc
            simp
          · right
            refine ih.mpr ⟨?_, h3⟩
            have h1' : c ∉ seen := by simpa using h1
            simp [List.contains_cons, hcc, h1']

theorem firstDedup_nodup (seen : List String) (l : List String) :
    (firstDedup seen l).Nodup := by
  induction l generalizing seen with
  | nil => simp [firstDedup]
  | cons c0 rest ih =>
    unfold firstDedup
    by_cases h : seen.contains c0
    · rw [if_pos h]
      exact ih seen
    · rw [if_neg h]
      refine List.nodup_cons.mpr ⟨?_, ih (c0 :: seen)⟩
      intro hm
      have := (mem_firstDedup.mp hm).1
      simp at this

theorem firstDedup_concat (seen : List String) (l : List String) (c : String) :
    firstDedup seen (l ++ [c]) =
      firstDedup seen l ++ (if seen.contains c || l.contains c then [] else [c]) := by
  induction l generalizing seen with
  | nil =>
    show firstDedup seen [c] = _
    unfold firstDedup
    by_cases h : seen.contains c <;> simp [h, firstDedup]
  | cons c0 rest ih =>
    show firstDedup seen (c0 :: (rest ++ [c])) = _
    unfold firstDedup
    by_cases h : seen.contains c0
    · rw [if_pos h, if_pos h, ih]
      congr 1
      by_cases hc : c = c0
      · subst hc
        have hmem : c ∈ seen := by simpa using h
        simp [hmem]
      · simp [List.contains_cons, hc, Ne.symm hc]
    · rw [if_neg h, if_neg h, ih]
      congr 2
      by_cases hc : c = c0
      · subst hc
        simp [List.contains_cons]
      · simp [List.contains_cons, hc, Ne.symm hc]

theorem budgetStep_specAssoc (l : List BItem) (a : BItem) :
    budgetStep (specAssoc l) a = specAssoc (l ++ [a]) := by
  unfold budgetStep specAssoc
  rw [List.map_append]
  simp only [List.map_cons, List.map_nil]
  rw [firstDedup_concat]
  simp only [List.contains_nil, Bool.false_or]
  by_cases hmem : (l.map BItem.category).contains a.category
  · rw [if_pos hmem, List.append_nil]
    have hca : (firstDedup [] (l.map BItem.category)).contains a.category = true := by
      have : a.category ∈ firstDedup [] (l.map BItem.category) :=
        mem_firstDedup.mpr ⟨by simp, by simpa using hmem⟩
      simpa using this
    rw [mapGetB_map_pairs]
    rw [if_pos hca]
    rw [mapSetB_map_pairs_mem _ _ _ _ (firstDedup_nodup _ _) hca]
    apply List.map_congr_left
    intro c' hc'
    by_cases hcc : c' = a.category
    · subst hcc
      simp only [if_pos rfl, Option.getD_some]
      unfold mergedBudgetRec
      rw [List.filter_append]
      simp only [List.filter_cons, List.filter_nil, beq_self_eq_true, if_pos]
      rw [mergedOf_concat]
    · rw [if_neg hcc]
      unfold mergedBudgetRec
      rw [List.filter_append]
      have : (a.category == c') = false := by
        simp only [beq_eq_false_iff_ne]
        exact Ne.symm hcc
      simp [List.filter_cons, this]
  · rw [if_neg hmem]
    have hca : (firstDedup [] (l.map BItem.category)).contains a.category = false := by
      by_contra hc
      simp only [Bool.not_eq_false] at hc
      have := (mem_firstDedup.mp (by simpa using hc)).2
      rw [show ((l.map BItem.category).contains a.category) = true from by simpa using this] at hmem
      exact hmem rfl
    rw [mapGetB_map_pairs,
      if_neg (by intro hcon; rw [hca] at hcon; exact absurd hcon (by simp) :
        ¬(firstDedup [] (l.map BItem.category)).contains a.category = true)]
    rw [mapSetB_map_pairs_notmem _ _ _ _ hca]
    rw [List.map_append]
    congr 1
    · apply List.map_congr_left
      intro c' hc'
      have hcc : c' ≠ a.category := by
        intro hh
        subst hh
        have := (mem_firstDedup.mp hc').2
        rw [show ((l.map BItem.category).contains a.category) = true from by simpa using this] at hmem
        exact hmem rfl
      unfold mergedBudgetRec
      rw [List.filter_append]
      have : (a.category == c') = false := by
        simp only [beq_eq_false_iff_ne]
        exact Ne.symm hcc
      simp [List.filter_cons, this]
    · simp only [List.map_cons, List.map_nil, Option.getD_none]
      unfold mergedBudgetRec
      rw [List.filter_append]
      have hfl : l.filter (fun b => b.category == a.category) = [] := by
        rw [List.filter_eq_nil_iff]
        intro b hb hbc
        have : b.category = a.category := by simpa using hbc
        have hm2 : a.category ∈ l.map BItem.category := by
          simp only [List.mem_map]
          exact ⟨b, hb, this⟩
        rw [show ((l.map BItem.category).contains a.category) = true from by simpa using hm2] at hmem
        exact hmem rfl
      rw [hfl]
      simp only [List.filter_cons, beq_self_eq_true, if_pos, List.filter_nil, List.nil_append]
      rw [show mergedOf a.category [a] = mergeInto (mergedOf a.category []) a from
        (mergedOf_concat a.category [] a).symm ▸ rfl]
      rw [mergedOf_nil]

theorem foldl_budgetStep_spec (acc : List BItem) :
    acc.foldl budgetStep [] = specAssoc acc := by
  induction acc using List.reverseRecOn with
  | nil => rfl
  | append_singleton l a ih =>
    rw [List.foldl_append, List.foldl_cons, List.foldl_nil, ih, budgetStep_specAssoc]

/-- The fixed head of the merged-duplicate warning text. -/
def mergeWarnPre : String := "Merged duplicate budget category "

/-- Recognizer of merged-duplicate warnings among the budget pass's warnings;
the other three budget warnings start with "Skipped". -/
def isMergeWarn (w : String) : Bool := mergeWarnPre.data.isPrefixOf w.data

theorem string_data_append (s t : String) : (s ++ t).data = s.data ++ t.data := rfl

theorem isMergeWarn_merge (c : String) : isMergeWarn (budgetMergeWarn c) = true := by
  show mergeWarnPre.data.isPrefixOf ((mergeWarnPre ++ quoteStr c) ++ ".").data = true
  rw [string_data_append, string_data_append, List.append_assoc]
  exact isPrefixOf_append_self _ _

theorem isMergeWarn_obj (i : Nat) : isMergeWarn (budgetObjWarn i) = false := rfl

theorem isMergeWarn_cat (i : Nat) (raw : JsVal) : isMergeWarn (budgetCatWarn i raw) = false := rfl

theorem isMergeWarn_money (c : String) : isMergeWarn (budgetMoneyWarn c) = false := rfl

theorem mapGetB_isSome (k : String) (agg : List (String × BudgetRec)) :
    (mapGetB k agg).isSome = (agg.map Prod.fst).contains k := by
  induction agg with
  | nil => rfl
  | cons p rest ih =>
    obtain ⟨k', r⟩ := p
    unfold mapGetB
    by_cases h : k' = k
    · subst h
      simp [List.contains_cons]
    · simp only [if_neg h, List.map_cons, List.contains_cons, ih]
      have : (k == k') = false := by
        simp only [beq_eq_false_iff_ne]
        exact Ne.symm h
      rw [this, Bool.false_or]

theorem mapSetB_keys_mem (k : String) (r : BudgetRec) (agg : List (String × BudgetRec))
    (h : (agg.map Prod.fst).contains k = true) :
    (mapSetB k r agg).map Prod.fst = agg.map Prod.fst := by
  induction agg with
  | nil => simp at h
  | cons p rest ih =>
    obtain ⟨k', r'⟩ := p
    unfold mapSetB
    by_cases hk : k' = k
    · subst hk
      simp
    · rw [if_neg hk]
      simp only [List.map_cons]
      have h' : (rest.map Prod.fst).contains k = true := by
        simp only [List.map_cons, List.contains_cons] at h
        rcases Bool.or_eq_true_iff.mp h with h1 | h1
        · exact absurd (by simpa using h1) (Ne.symm hk)
        · exact h1
      rw [ih h']

theorem mapSetB_keys_notmem (k : String) (r : BudgetRec) (agg : List (String × BudgetRec))
    (h : (agg.map Prod.fst).contains k = false) :
    (mapSetB k r agg).map Prod.fst = agg.map Prod.fst ++ [k] := by
  induction agg with
  | nil => rfl
  | cons p rest ih =>
    obtain ⟨k', r'⟩ := p
    simp only [List.map_cons, List.contains_cons, Bool.or_eq_false_iff] at h
    obtain ⟨h1, h2⟩ := h
    have hk : k' ≠ k := by
      intro hh
      subst hh
      simp at h1
    unfold mapSetB
    rw [if_neg hk]
    simp only [List.map_cons, ih h2, List.cons_append]

theorem dupBItems_seen_congr (s1 s2 : List String)
    (h : ∀ c, s1.contains c = s2.contains c) (l : List BItem) :
    dupBItems s1 l = dupBItems s2 l := by
  induction l generalizing s1 s2 with
  | nil => rfl
  | cons a rest ih =>
    unfold dupBItems
    rw [h a.category]
    by_cases hc : s2.contains a.category = true
    · rw [if_pos hc, if_pos hc, ih s1 s2 h]
    · rw [if_neg hc, if_neg hc]
      apply ih
      intro c
      simp only [List.contains_cons, h c]

set_option maxHeartbeats 1000000 in
theorem sanitizeBudgetItemsAux_spec (items : List JsVal) :
    ∀ (i : Nat) (agg : List (String × BudgetRec)) (ws : List String),
    (∃ e, acceptedBudgetItems items = .error e ∧
      sanitizeBudgetItemsAux items i agg ws = .error e) ∨
    (∃ acc ws2, acceptedBudgetItems items = .ok acc ∧
      sanitizeBudgetItemsAux items i agg ws = .ok (acc.foldl budgetStep agg, ws ++ ws2) ∧
      ws2.filter isMergeWarn =
        (dupBItems (agg.map Prod.fst) acc).map (fun b => budgetMergeWarn b.category)) := by
  induction items with
  | nil =>
    intro i agg ws
    right
    refine ⟨[], [], rfl, ?_, rfl⟩
    simp [sanitizeBudgetItemsAux]
  | cons item rest ih =>
    intro i agg ws
    by_cases hobj : (!jsTruthy item || jsTypeof item != "object") = true
    · rcases ih (i + 1) agg (ws ++ [budgetObjWarn i]) with ⟨e, he1, he2⟩ | ⟨acc, ws2, h1, h2, h3⟩
      · left
        refine ⟨e, ?_, ?_⟩
        · simp only [acceptedBudgetItems, if_pos hobj]
          exact he1
        · simp only [sanitizeBudgetItemsAux, if_pos hobj]
          exact he2
      · right
        refine ⟨acc, budgetObjWarn i :: ws2, ?_, ?_, ?_⟩
        · simp only [acceptedBudgetItems, if_pos hobj]
          exact h1
        · simp only [sanitizeBudgetItemsAux, if_pos hobj]
          rw [h2, List.append_assoc]
          rfl
        · simp only [List.filter_cons, isMergeWarn_obj]
          simpa using h3
    · cases hcat : canonicalizeBudgetCategory (jsGetField item "category") with
      | error e =>
        left
        refine ⟨e, ?_, ?_⟩
        · simp only [acceptedBudgetItems, if_neg hobj, hcat]
        · simp only [sanitizeBudgetItemsAux, if_neg hobj, hcat]
      | ok o =>
        cases o with
        | none =>
          rcases ih (i + 1) agg (ws ++ [budgetCatWarn i (jsGetField item "category")]) with
            ⟨e, he1, he2⟩ | ⟨acc, ws2, h1, h2, h3⟩
          · left
            refine ⟨e, ?_, ?_⟩
            · simp only [acceptedBudgetItems, if_neg hobj, hcat]
              exact he1
            · simp only [sanitizeBudgetItemsAux, if_neg hobj, hcat]
              exact he2
          · right
            refine ⟨acc, budgetCatWarn i (jsGetField item "category") :: ws2, ?_, ?_, ?_⟩
            · simp only [acceptedBudgetItems, if_neg hobj, hcat]
              exact h1
            · simp only [sanitizeBudgetItemsAux, if_neg hobj, hcat]
              rw [h2, List.append_assoc]
              rfl
            · simp only [List.filter_cons, isMergeWarn_cat]
              simpa using h3
        | some category =>
          by_cases hmon : ((normalizeBudgetItem item category).budgeted.isNone &&
              (normalizeBudgetItem item category).spent.isNone &&
              (normalizeBudgetItem item category).tamount.isNone) = true
          · rcases ih (i + 1) agg (ws ++ [budgetMoneyWarn category]) with
              ⟨e, he1, he2⟩ | ⟨acc, ws2, h1, h2, h3⟩
            · left
              refine ⟨e, ?_, ?_⟩
              · simp only [acceptedBudgetItems, if_neg hobj, hcat, if_pos hmon]
                exact he1
              · simp only [sanitizeBudgetItemsAux, if_neg hobj, hcat, if_pos hmon]
                exact he2
            · right
              refine ⟨acc, budgetMoneyWarn category :: ws2, ?_, ?_, ?_⟩
              · simp only [acceptedBudgetItems, if_neg hobj, hcat, if_pos hmon]
                exact h1
              · simp only [sanitizeBudgetItemsAux, if_neg hobj, hcat, if_pos hmon]
                rw [h2, List.append_assoc]
                rfl
              · simp only [List.filter_cons, isMergeWarn_money]
                simpa using h3
          · by_cases hsome : (mapGetB category agg).isSome = true
            · rcases ih (i + 1) (budgetStep agg (normalizeBudgetItem item category))
                  (ws ++ [budgetMergeWarn category]) with ⟨e, he1, he2⟩ | ⟨acc, ws2, h1, h2, h3⟩
              · left
                refine ⟨e, ?_, ?_⟩
                · simp only [acceptedBudgetItems, if_neg hobj, hcat, if_neg hmon, he1]
                · simp only [sanitizeBudgetItemsAux, if_neg hobj, hcat, if_neg hmon, if_pos hsome]
                  exact he2
              · right
                refine ⟨normalizeBudgetItem item category :: acc,
                  budgetMergeWarn category :: ws2, ?_, ?_, ?_⟩
                · simp only [acceptedBudgetItems, if_neg hobj, hcat, if_neg hmon, h1]
                · simp only [sanitizeBudgetItemsAux, if_neg hobj, hcat, if_neg hmon, if_pos hsome]
                  rw [List.foldl_cons, show ws ++ budgetMergeWarn category :: ws2 =
                    (ws ++ [budgetMergeWarn category]) ++ ws2 from by
                      rw [List.append_assoc]; rfl]
                  exact h2
                · have hcont : (agg.map Prod.fst).contains
                      (normalizeBudgetItem item category).category = true := by
                    rw [show (normalizeBudgetItem item category).category = category from rfl,
                      ← mapGetB_isSome]
                    exact hsome
                  rw [show dupBItems (agg.map Prod.fst)
                        (normalizeBudgetItem item category :: acc) =
                      normalizeBudgetItem item category ::
                        dupBItems (agg.map Prod.fst) acc from by
                    rw [dupBItems, if_pos hcont]]
                  have hkeys : (budgetStep agg (normalizeBudgetItem item category)).map Prod.fst =
                      agg.map Prod.fst := mapSetB_keys_mem _ _ _ hcont
                  rw [hkeys] at h3
                  simp only [List.map_cons, List.filter_cons, isMergeWarn_merge, if_true]
                  rw [h3]
                  rfl
            · rcases ih (i + 1) (budgetStep agg (normalizeBudgetItem item category)) ws with
                ⟨e, he1, he2⟩ | ⟨acc, ws2, h1, h2, h3⟩
              · left
                refine ⟨e, ?_, ?_⟩
                · simp only [acceptedBudgetItems, if_neg hobj, hcat, if_neg hmon, he1]
                · simp only [sanitizeBudgetItemsAux, if_neg hobj, hcat, if_neg hmon, if_neg hsome]
                  exact he2
              · right
                refine ⟨normalizeBudgetItem item category :: acc, ws2, ?_, ?_, ?_⟩
                · simp only [acceptedBudgetItems, if_neg hobj, hcat, if_neg hmon, h1]
                · simp only [sanitizeBudgetItemsAux, if_neg hobj, hcat, if_neg hmon, if_neg hsome]
                  rw [List.foldl_cons]
                  exact h2
                · have hcont : (agg.map Prod.fst).contains
                      (normalizeBudgetItem item category).category = false := by
                    rw [show (normalizeBudgetItem item category).category = category from rfl,
                      ← mapGetB_isSome]
                    exact Bool.not_eq_true _ ▸ hsome
                  rw [show dupBItems (agg.map Prod.fst)
                        (normalizeBudgetItem item category :: acc) =
                      dupBItems ((normalizeBudgetItem item category).category ::
                        agg.map Prod.fst) acc from by
                    rw [dupBItems, if_neg (by rw [hcont]; exact Bool.false_ne_true)]]
                  have hkeys : (budgetStep agg (normalizeBudgetItem item category)).map Prod.fst =
                      agg.map Prod.fst ++ [(normalizeBudgetItem item category).category] :=
                    mapSetB_keys_notmem _ _ _ hcont
                  rw [hkeys] at h3
                  rw [h3]
                  refine congrArg _ (dupBItems_seen_congr _ _ (fun c => ?_) acc)
                  have hpc : (normalizeBudgetItem item category).category = category := rfl
                  rw [hpc]
                  by_cases hc : c = category
                  · rw [hc]
                    simp
                  · have hbc : (c == category) = false := by
                      simp only [beq_eq_false_iff_ne]
                      exact hc
                    simp [hbc, List.mem_append, hc]

/-- **C3.** For every budget-item array input on which `sanitizeBudgetItems`
returns in-band, the accepted items (truthy object, resolved canonical
category, at least one monetary value) determine the output exactly: one
record per canonical category in first-occurrence order, whose
`spent_amount` is the additive sum of that category's accepted spent
amounts (200 and 250 merge to 450) and whose `budgeted_amount`,
`transaction_amount`, `transaction_date`, `transaction_description` and
`notes` are each the last non-null normalized value in input order; and the
merged-duplicate warnings among the pass's warnings are exactly one warning
naming the category per accepted item whose category was already present in
the accumulator when it was processed. -/
theorem claim_C3_budget_merge (items : List JsVal) (recs : List BudgetRec) (ws : List String)
    (h : sanitizeBudgetItems (.arr items) = .ok (recs, ws)) :
    ∃ acc, acceptedBudgetItems items = .ok acc ∧
      recs = (firstDedup [] (acc.map BItem.category)).map (fun c => mergedBudgetRec c acc) ∧
      ws.filter isMergeWarn = (dupBItems [] acc).map (fun b => budgetMergeWarn b.category) := by
  simp only [sanitizeBudgetItems] at h
  by_cases hemp : items.isEmpty = true
  · have hnil : items = [] := by
      cases items with
      | nil => rfl
      | cons a l => simp [List.isEmpty] at hemp
    subst hnil
    rw [if_pos hemp] at h
    simp only [Except.ok.injEq, Prod.mk.injEq] at h
    obtain ⟨hr, hw⟩ := h
    exact ⟨[], rfl, by rw [← hr]; rfl, by rw [← hw]; rfl⟩
  · rw [if_neg hemp] at h
    rcases sanitizeBudgetItemsAux_spec items 0 [] [] with ⟨e, _, he2⟩ | ⟨acc, ws2, h1, h2, h3⟩
    · rw [he2] at h
      exact absurd h (by simp)
    · rw [h2] at h
      simp only [Except.ok.injEq, Prod.mk.injEq, List.nil_append] at h
      obtain ⟨hr, hw⟩ := h
      refine ⟨acc, h1, ?_, ?_⟩
      · rw [← hr, foldl_budgetStep_spec]
        simp [specAssoc, List.map_map, Function.comp]
      · rw [← hw]
        simpa using h3

def c3DemoItems : List JsVal :=
  [.obj [("category", .str "flowers"), ("spent_amount", .num 200)],
   .obj [("category", .str "flowers"), ("spent_amount", .num 250)]]

/-- Witness for C3: two "flowers" items with spent 200 and 250 merge into one
record with spent 450 and one merged-duplicate warning, and the theorem's
characterization holds on this input. -/
theorem claim_C3_witness :
    sanitizeBudgetItems (.arr c3DemoItems) =
      .ok ([{ emptyBudgetRec "flowers" with spent_amount := some 450 }],
        ["Merged duplicate budget category \"flowers\"."]) ∧
    (∃ acc, acceptedBudgetItems c3DemoItems = .ok acc ∧
      [{ emptyBudgetRec "flowers" with spent_amount := some 450 }] =
        (firstDedup [] (acc.map BItem.category)).map (fun c => mergedBudgetRec c acc) ∧
      (["Merged duplicate budget category \"flowers\"."]).filter isMergeWarn =
        (dupBItems [] acc).map (fun b => budgetMergeWarn b.category)) :=
  ⟨by decide, claim_C3_budget_merge c3DemoItems _ _ (by decide)⟩

/-! ## Claim C4: profile-key handling

Specification-side restatement of the per-key validators and the per-key
warning texts of `sanitizeWeddingInfo`, to compare with the loop. -/

/-- The five keys whose validator failure produces a warning
(session.js 278-322). -/
def wiValidatedKeys : List String :=
  ["wedding_date", "wedding_time", "expected_guest_count", "total_budget", "venue_cost"]

/-- The normalizer the `switch` applies to a recognized key. -/
def wiValidator (k : String) (v : JsVal) : Option WiVal :=
  if k = "wedding_date" then (normalizeDate v).map WiVal.s
  else if k = "wedding_time" then (formatWeddingTimeForSupabase v).map WiVal.s
  else if k = "expected_guest_count" then (normalizeInteger v).map WiVal.n
  else if k = "total_budget" then (normalizeCurrency v).map WiVal.n
  else if k = "venue_cost" then (normalizeCurrency v).map WiVal.n
  else if wiStringKeys.contains k then (toTrimmedString v).map WiVal.s
  else none

/-- The warning the `switch` pushes when the key's normalizer fails: present
only for the five validated keys, absent for the nine free-text keys and
for unrecognized keys. -/
def wiWarnFor (k : String) (v : JsVal) : Option String :=
  if k = "wedding_date" then some (wiDateWarn v)
  else if k = "wedding_time" then some (wiTimeWarn v)
  else if k = "expected_guest_count" then some (wiCountWarn v)
  else if k = "total_budget" then some (wiBudgetWarn v)
  else if k = "venue_cost" then some (wiVenueWarn v)
  else none

theorem wiStep_eq (acc : List (String × WiVal) × List String) (e : String × JsVal) :
    wiStep acc e =
      if isSkipValue e.2 then acc
      else match wiValidator e.1 e.2 with
        | some w => (setField e.1 w acc.1, acc.2)
        | none => (acc.1, acc.2 ++ (wiWarnFor e.1 e.2).toList) := by
  obtain ⟨k, v⟩ := e
  by_cases hskip : isSkipValue v = true
  · simp only [wiStep, if_pos hskip]
  · simp only [wiStep, wiValidator, wiWarnFor, if_neg hskip]
    by_cases h1 : k = "wedding_date"
    · simp only [if_pos h1]
      cases normalizeDate v <;> rfl
    · simp only [if_neg h1]
      by_cases h2 : k = "wedding_time"
      · simp only [if_pos h2]
        cases formatWeddingTimeForSupabase v <;> rfl
      · simp only [if_neg h2]
        by_cases h3 : k = "expected_guest_count"
        · simp only [if_pos h3]
          cases normalizeInteger v <;> rfl
        · simp only [if_neg h3]
          by_cases h4 : k = "total_budget"
          · simp only [if_pos h4]
            cases normalizeCurrency v <;> rfl
          · simp only [if_neg h4]
            by_cases h5 : k = "venue_cost"
            · simp only [if_pos h5]
              cases normalizeCurrency v <;> rfl
            · simp only [if_neg h5]
              by_cases h6 : wiStringKeys.contains k = true
              · simp only [if_pos h6]
                cases toTrimmedString v <;> simp
              · simp only [if_neg h6]
                simp

theorem setField_notmem (k : String) (w : WiVal) (acc : List (String × WiVal))
    (h : k ∉ acc.map Prod.fst) : setField k w acc = acc ++ [(k, w)] := by
  induction acc with
  | nil => rfl
  | cons p rest ih =>
    obtain ⟨k', v'⟩ := p
    simp only [List.map_cons, List.mem_cons, not_or] at h
    obtain ⟨h1, h2⟩ := h
    unfold setField
    rw [if_neg (fun hh => h1 hh.symm), ih h2]
    rfl

theorem wiFold_spec (es : List (String × JsVal)) :
    ∀ (acc : List (String × WiVal)) (ws : List String),
    (es.map Prod.fst).Nodup →
    (∀ k, k ∈ es.map Prod.fst → k ∉ acc.map Prod.fst) →
    es.foldl wiStep (acc, ws) =
      (acc ++ es.filterMap (fun e => if isSkipValue e.2 then none
          else (wiValidator e.1 e.2).map (fun w => (e.1, w))),
       ws ++ es.filterMap (fun e => if isSkipValue e.2 then none
          else match wiValidator e.1 e.2 with
            | some _ => none
            | none => wiWarnFor e.1 e.2)) := by
  induction es with
  | nil =>
    intro acc ws _ _
    simp
  | cons e rest ih =>
    intro acc ws hnd hdisj
    rw [List.foldl_cons, wiStep_eq]
    simp only [List.map_cons, List.nodup_cons] at hnd
    obtain ⟨hhead, htail⟩ := hnd
    by_cases hskip : isSkipValue e.2 = true
    · rw [if_pos hskip, ih acc ws htail
        (fun k hk => hdisj k (by simp [hk]))]
      simp only [List.filterMap_cons, if_pos hskip]
    · rw [if_neg hskip]
      cases hv : wiValidator e.1 e.2 with
      | some w =>
        have hnot : e.1 ∉ acc.map Prod.fst := hdisj e.1 (by simp)
        show List.foldl wiStep (setField e.1 w acc, ws) rest = _
        rw [setField_notmem e.1 w acc hnot]
        rw [ih (acc ++ [(e.1, w)]) ws htail (fun k hk => by
          simp only [List.map_append, List.mem_append, not_or]
          refine ⟨hdisj k (by simp [hk]), ?_⟩
          simp only [List.map_cons, List.map_nil, List.mem_singleton]
          intro hh
          subst hh
          exact hhead hk)]
        simp only [List.filterMap_cons, if_neg hskip, hv, Option.map_some',
          List.append_assoc, List.singleton_append]
      | none =>
        show List.foldl wiStep (acc, ws ++ (wiWarnFor e.1 e.2).toList) rest = _
        cases hw : wiWarnFor e.1 e.2 with
        | some warn =>
          show List.foldl wiStep (acc, ws ++ [warn]) rest = _
          rw [ih acc (ws ++ [warn]) htail (fun k hk => hdisj k (by simp [hk]))]
          simp only [List.filterMap_cons, if_neg hskip, hv, hw, Option.map_none',
            List.append_assoc, List.singleton_append]
        | none =>
          show List.foldl wiStep (acc, ws ++ []) rest = _
          rw [List.append_nil]
          rw [ih acc ws htail (fun k hk => hdisj k (by simp [hk]))]
          simp only [List.filterMap_cons, if_neg hskip, hv, hw, Option.map_none']

/-- **C4 (amended).** For every wedding-info object (with the distinct keys
JavaScript's `Object.entries` guarantees), the output of
`sanitizeWeddingInfo` is exactly characterized per entry: null, undefined
and empty-string values are skipped silently; a recognized key whose
normalizer succeeds is stored under that key, so only recognized keys with
validated values ever appear; unrecognized keys are dropped silently; and a
key whose normalizer fails is omitted, with one descriptive warning naming
the key and the raw value for the five validated keys
(`wedding_date`, `wedding_time`, `expected_guest_count`, `total_budget`,
`venue_cost`) but — contrary to the claim as stated — silently, with no
warning, for the nine free-text keys (`wiWarnFor` is `none` there). -/
theorem claim_C4_profile_keys (es : List (String × JsVal))
    (hnd : (es.map Prod.fst).Nodup) :
    sanitizeWeddingInfo (.obj es) =
      (es.filterMap (fun e => if isSkipValue e.2 then none
          else (wiValidator e.1 e.2).map (fun w => (e.1, w))),
       es.filterMap (fun e => if isSkipValue e.2 then none
          else match wiValidator e.1 e.2 with
            | some _ => none
            | none => wiWarnFor e.1 e.2)) := by
  show es.foldl wiStep ([], []) = _
  have h := wiFold_spec es [] [] hnd (by simp)
  simpa using h

/-- Counterexample to C4 as stated: `"partner1_name"` is a recognized key,
the raw value `" "` is present and neither null nor the empty string, its
normalizer rejects it (`toTrimmedString` trims it to the falsy empty
string) and the key is omitted — yet no warning is recorded, where the
claim requires one descriptive warning. -/
theorem claim_C4_counterexample :
    isSkipValue (.str " ") = false ∧
    wiStringKeys.contains "partner1_name" = true ∧
    wiValidator "partner1_name" (.str " ") = none ∧
    sanitizeWeddingInfo (.obj [("partner1_name", .str " ")]) = ([], []) := by decide

def c4DemoEntries : List (String × JsVal) :=
  [("wedding_date", .str "2025-09-20"), ("partner1_name", .str " "),
   ("total_budget", .str "nope"), ("junk", .str "x")]

/-- Witness for C4: on a concrete object with a valid date, a
whitespace-only free-text value, a failing validated key and an
unrecognized key, the characterization yields exactly the date field and
exactly the total_budget warning. -/
theorem claim_C4_witness :
    (c4DemoEntries.map Prod.fst).Nodup ∧
    sanitizeWeddingInfo (.obj c4DemoEntries) =
      ([("wedding_date", WiVal.s "2025-09-20")],
       ["Ignored total_budget: expected positive currency, received \"nope\"."]) :=
  ⟨by decide, (claim_C4_profile_keys c4DemoEntries (by decide)).trans (by decide)⟩
